import Mathlib

/-!
Verification development for the content-pipeline repository
(orchestrator Pipeline core, prompter gates, file manager persistence).

The JavaScript sources are shallowly embedded:

* JS values are modelled by the mutual inductive `Json` / `JsonArr` /
  `JsonObj` (JS numbers are modelled as integers: no fractional number
  appears anywhere in the pipeline control flow or its state documents).
  The extra constructor `Json.undef` models the JS value `undefined`,
  which is distinct from a key being absent only through object spreads
  and `JSON.stringify`; both places are modelled faithfully.
* Stateful methods of the `Pipeline` class become explicit state-passing
  functions; `async` methods that can throw return `Except String`.
* The interactive prompts (`prompter.js`) read the human's raw answers
  from an oracle (`Prompter`), and the interpreter records every agent
  execution and every confirmation-gate invocation in an event trace, so
  that "step k never executes" / "the gate is never invoked" become
  statements about the trace.
-/

set_option maxRecDepth 4000
set_option autoImplicit false

namespace Cursor

/- JS values (numbers as integers), including the JS `undefined`. -/
mutual

inductive Json where
  | null : Json
  | undef : Json
  | bool (b : Bool) : Json
  | num (n : Int) : Json
  | str (s : String) : Json
  | arr (elems : JsonArr) : Json
  | obj (fields : JsonObj) : Json

inductive JsonArr where
  | nil : JsonArr
  | cons (head : Json) (tail : JsonArr) : JsonArr

inductive JsonObj where
  | nil : JsonObj
  | cons (key : String) (val : Json) (tail : JsonObj) : JsonObj

end

namespace JsonObj

/-- First-occurrence lookup of a key, as JS property access on an object. -/
def lookup : JsonObj → String → Option Json
  | .nil, _ => none
  | .cons k v t, key => if k = key then some v else t.lookup key

/-- JS property assignment `o[k] = v`: overwrite in place if the key exists,
otherwise append the new key at the end (JS insertion order). -/
def setKey : JsonObj → String → Json → JsonObj
  | .nil, key, v => .cons key v .nil
  | .cons k w t, key, v =>
      if k = key then .cons k v t else .cons k w (t.setKey key v)

/-- Keys of the object, in order. -/
def keys : JsonObj → List String
  | .nil => []
  | .cons k _ t => k :: t.keys

/-- Number of entries. -/
def size (o : JsonObj) : Nat := o.keys.length

/-- Append two field lists. -/
def append : JsonObj → JsonObj → JsonObj
  | .nil, o => o
  | .cons k v t, o => .cons k v (t.append o)

/-- List view of the fields. -/
def entries : JsonObj → List (String × Json)
  | .nil => []
  | .cons k v t => (k, v) :: t.entries

/-- Build an object from a list of pairs. -/
def ofList : List (String × Json) → JsonObj
  | [] => .nil
  | (k, v) :: t => .cons k v (ofList t)

end JsonObj

namespace Json

/-- JS truthiness: `undefined`, `null`, `false`, `0`, and the empty string
are falsy, every other value (including empty arrays and objects) is truthy. -/
def truthy : Json → Bool
  | .null => false
  | .undef => false
  | .bool b => b
  | .num n => n != 0
  | .str s => s ≠ ""
  | .arr _ => true
  | .obj _ => true

/-- Property lookup that yields `none` for an absent key (JS `undefined`) and
for primitives, which have no own named properties relevant here. Null and
undefined receivers are handled separately by `jsGet`. -/
def get? : Json → String → Option Json
  | .obj fields, k => fields.lookup k
  | _, _ => none

/-- JS property access `base.k`: throws a `TypeError` when the receiver is
`null` or `undefined`, otherwise yields the property value (`none` = JS
`undefined` result). -/
def jsGet : Json → String → Except String (Option Json)
  | .null, k => .error ("TypeError: Cannot read properties of null (reading '" ++ k ++ "')")
  | .undef, k => .error ("TypeError: Cannot read properties of undefined (reading '" ++ k ++ "')")
  | j, k => .ok (j.get? k)

/-- Truthiness of a possibly-absent value (absent = JS `undefined` = falsy). -/
def truthyOpt (o : Option Json) : Bool :=
  match o with
  | none => false
  | some j => j.truthy

/-- List view of a `JsonArr`. -/
def arrList : JsonArr → List Json
  | .nil => []
  | .cons h t => h :: arrList t

/-- Index-keyed fields `0 ↦ x0, 1 ↦ x1, …` used for spreading strings/arrays. -/
def indexFields : List Json → Nat → JsonObj
  | [], _ => .nil
  | x :: t, i => .cons (toString i) x (indexFields t (i + 1))

/-- Fields contributed by spreading a value into an object literal
(`... value`): objects contribute their fields, strings and arrays
contribute index-keyed entries, all other values contribute nothing. -/
def spreadFields : Json → JsonObj
  | .obj fields => fields
  | .str s => indexFields (s.data.map (fun c => Json.str (String.mk [c]))) 0
  | .arr elems => indexFields (arrList elems) 0
  | _ => .nil

end Json

/-- Object-literal spread merge `brace ...base, ...extra brace`: start from the
base fields and assign each spread field in order (later assignments
overwrite earlier values in place, new keys append). -/
def mergeSpread (base : JsonObj) (extra : Json) : JsonObj :=
  (extra.spreadFields.entries).foldl (fun acc kv => acc.setKey kv.1 kv.2) base

/-- Property access chained after a possibly-undefined intermediate value,
as in `result.output.trends`: an absent intermediate is the JS `undefined`
and accessing a property on it throws. -/
def jsGetOpt (o : Option Json) (k : String) : Except String (Option Json) :=
  match o with
  | none => Json.jsGet .undef k
  | some j => j.jsGet k

/-! ## Prompter (shared/lib/prompter.js)

The human is an oracle (`Prompter`) supplying the raw answer strings that
`readline` would deliver; the prompt functions below compute exactly what
`prompter.js` resolves from those answers. -/

/-- One entry of the option list handed to `select` (label/value object). -/
structure SelOption where
  label : String
  value : String
deriving DecidableEq, Repr

/-- What `select` resolves: chosen index, value and label. -/
structure SelChoice where
  index : Nat
  value : String
  label : String
deriving DecidableEq, Repr

/-- Oracle for the interactive prompts: the raw strings the human types. -/
structure Prompter where
  selectAnswer : String → List SelOption → String
  askAnswer : String → String
  confirmAnswer : String → Bool → String

/-- JS `String.prototype.trim()`: strip whitespace from both ends. -/
def jsTrim (s : String) : String :=
  String.mk (((s.data.dropWhile Char.isWhitespace).reverse.dropWhile Char.isWhitespace).reverse)

/-- JS `String.prototype.toLowerCase()` (ASCII case folding). -/
def jsToLower (s : String) : String :=
  String.mk (s.data.map Char.toLower)

/-- Digits-prefix parse used by `parseInt`: `none` when no leading digit. -/
def parseLeadingNat (cs : List Char) : Option Nat :=
  let ds := cs.takeWhile Char.isDigit
  if ds.isEmpty then none
  else some (ds.foldl (fun a c => 10 * a + (c.toNat - 48)) 0)

/-- JS `parseInt(s.trim(), 10)`: optional sign then leading decimal digits,
`none` for NaN. -/
def parseIntJS (s : String) : Option Int :=
  match (jsTrim s).data with
  | '-' :: rest => (parseLeadingNat rest).map (fun n => -(n : Int))
  | '+' :: rest => (parseLeadingNat rest).map (fun n => (n : Int))
  | cs => (parseLeadingNat cs).map (fun n => (n : Int))

/-- `prompter.select(question, options, defaultIndex)`: a 1-based number
inside the range picks that option, anything else falls back to the
default index. -/
def selectChoice (p : Prompter) (question : String) (options : List SelOption)
    (defaultIndex : Nat) : SelChoice :=
  let answer := p.selectAnswer question options
  let idx :=
    match parseIntJS answer with
    | some n => if 1 ≤ n ∧ n ≤ (options.length : Int) then (n - 1).toNat else defaultIndex
    | none => defaultIndex
  let sel := options.getD idx ⟨"", ""⟩
  ⟨idx, sel.value, sel.label⟩

/-- `prompter.confirm(question, defaultYes)`: empty answer takes the default,
otherwise only `y`/`yes` (case-insensitive, trimmed) counts as yes. -/
def confirmAsk (p : Prompter) (question : String) (defaultYes : Bool) : Bool :=
  let normalized := jsToLower (jsTrim (p.confirmAnswer question defaultYes))
  if normalized = "" then defaultYes
  else normalized = "y" || normalized = "yes"

/-- `prompter.ask(question, '')`: the trimmed answer (empty default). -/
def askText (p : Prompter) (question : String) : String :=
  jsTrim (p.askAnswer question)

/-- The five options `confirmTrends` offers. -/
def trendOptions : List SelOption :=
  [⟨"✅ このまま続行", "continue"⟩,
   ⟨"✏️  トレンドを編集する", "edit"⟩,
   ⟨"➕ トレンドを追加する", "add"⟩,
   ⟨"🔄 再分析する", "retry"⟩,
   ⟨"❌ キャンセル", "cancel"⟩]

/-- `prompter.confirmTrends(trends)`: displays the trend list and returns the
value of the selected option (default: the first, `continue`). -/
def confirmTrendsGate (p : Prompter) (_trends : Json) : String :=
  (selectChoice p "このトレンドで執筆を開始しますか？" trendOptions 0).value

/-- The four options `confirmSuggestions` offers. -/
def suggestionOptions : List SelOption :=
  [⟨"✅ 提案を適用して修正版を生成", "apply"⟩,
   ⟨"📄 このまま続行（適用しない）", "skip"⟩,
   ⟨"✏️  手動で修正指示を入力", "manual"⟩,
   ⟨"❌ キャンセル", "cancel"⟩]

/-- What `confirmSuggestions` resolves: an action, plus the free-text
instruction collected for the manual action. -/
structure SuggChoice where
  action : String
  instruction : Option String
deriving DecidableEq, Repr

/-- `prompter.confirmSuggestions(suggestions)`: displays the suggestion list,
returns the selected action; `manual` additionally collects an instruction. -/
def confirmSuggestionsGate (p : Prompter) (_suggestions : Json) : SuggChoice :=
  let choice := selectChoice p "どうしますか？" suggestionOptions 0
  if choice.value = "manual" then
    ⟨"manual", some (askText p "修正指示を入力してください")⟩
  else
    ⟨choice.value, none⟩

/-! ## Pipeline (Pipeline class of the orchestrator) -/

/-- An agent module: a name and the `execute(input, options)` contract
(`Except.error` models a thrown/rejected execution). -/
structure Agent where
  name : String
  execute : JsonObj → JsonObj → Except String Json

/-- The agent names `getAgent` knows a path for. -/
def registeredAgents : List String :=
  ["research_agent", "creative_writer_agent", "rights_checker_agent", "editor_agent"]

/-- `createMockAgent`: always succeeds with the mock marker, echoing input
and options as top-level fields of the result (no `output` field). -/
def mockAgent (agentName : String) : Agent :=
  ⟨agentName, fun input options =>
    .ok (.obj (.cons "success" (.bool true)
          (.cons "mock" (.bool true)
            (.cons "input" (.obj input)
              (.cons "options" (.obj options) .nil)))))⟩

/-- Environment of one run: the loadable agent modules (`none` models both
an unknown path target and a load-time fault) and the prompt oracle. -/
structure Env where
  loadAgent : String → Option Agent
  prompter : Prompter

/-- Pipeline constructor options: project path and auto mode. -/
structure Cfg where
  projectPath : String
  autoMode : Bool

/-- `Pipeline.getAgent`: unknown names throw inside the guarded block and
load faults are caught likewise, both degrading to the mock agent; this
resolution itself never throws. (The per-instance cache is behaviourally
inert here because `loadAgent` is a fixed function, like `require`'s
module cache.) -/
def getAgent (env : Env) (agentName : String) : Agent :=
  if registeredAgents.contains agentName then
    match env.loadAgent agentName with
    | some a => a
    | none => mockAgent agentName
  else mockAgent agentName

/-- One workflow step as `Pipeline.run`/`executeStep` consume it; `confirm`
holds the truthiness of `step.confirm`. -/
structure Step where
  agent : String
  id : Option String := none
  name : Option String := none
  confirm : Bool := false
  confirmType : Option String := none
  confirmMessage : Option String := none
  options : Option Json := none
  output : Option Json := none

/-- A workflow definition: named, ordered steps. -/
structure Workflow where
  name : String
  steps : List Step

/-- The key a step's result is recorded under: `step.id || step.agent`. -/
def stepKey (s : Step) : String :=
  match s.id with
  | some i => if i = "" then s.agent else i
  | none => s.agent

/-- Per-step options: projectPath, outputPath (the JS literal always carries
the key, with `undefined` when `step.output` is absent), then
`...step.options`. -/
def buildOptions (cfg : Cfg) (s : Step) : JsonObj :=
  mergeSpread
    (.cons "projectPath" (.str cfg.projectPath)
      (.cons "outputPath" (s.output.getD .undef) .nil))
    (s.options.getD .undef)

/-- The pipeline's `this.state`. -/
structure PState where
  currentStep : Nat
  status : String
  results : JsonObj

/-- Fresh state as built by the `Pipeline` constructor. -/
def initState : PState := ⟨0, "idle", .nil⟩

/-- The four structured outcomes `Pipeline.run` returns. -/
inductive Outcome where
  | success (results : JsonObj)
  | cancelled
  | paused (step : Nat)
  | error (msg : String) (step : Nat)

/-- Observable events of a run: agent executions (with the exact input and
options passed) and confirmation-gate invocations (with the payload shown). -/
inductive Event where
  | agentExec (stepIndex : Nat) (agentName : String) (input : JsonObj) (options : JsonObj)
  | gateTrends (payload : Json)
  | gateSuggestions (payload : Json)
  | gateConfirm (message : String) (defaultYes : Bool)

/-- Whether an event is a confirmation-gate invocation. -/
def Event.isGate : Event → Bool
  | .agentExec _ _ _ _ => false
  | _ => true

/-- `Pipeline.executeStep`: resolve the agent, build options, execute;
the trailing `if (result.success)` logging performs a property access
that throws on a null/undefined result. -/
def executeStep (env : Env) (cfg : Cfg) (s : Step) (input : JsonObj) :
    Except String Json := do
  let agent := getAgent env s.agent
  let options := buildOptions cfg s
  let r ← agent.execute input options
  let _ ← r.jsGet "success"
  .ok r

/-- `Pipeline.handleConfirmPoint`: dispatch on `step.confirmType || 'default'`;
returns the continuation decision plus the gate event describing the
invocation.  Accessing `result.output.trends` / `.suggestions` throws when
`result.output` is null or undefined. -/
def handleConfirmPoint (p : Prompter) (s : Step) (result : Json) :
    Except String (Bool × Event) :=
  let confirmType :=
    match s.confirmType with
    | some t => if t = "" then "default" else t
    | none => "default"
  if confirmType = "trends" then do
    let outputOpt ← result.jsGet "output"
    let trendsOpt ← jsGetOpt outputOpt "trends"
    let payload :=
      match trendsOpt with
      | some t => if t.truthy then t else .arr .nil
      | none => .arr .nil
    let action := confirmTrendsGate p payload
    .ok (action = "continue", .gateTrends payload)
  else if confirmType = "suggestions" then do
    let outputOpt ← result.jsGet "output"
    let suggOpt ← jsGetOpt outputOpt "suggestions"
    let payload :=
      match suggOpt with
      | some t => if t.truthy then t else .arr .nil
      | none => .arr .nil
    let choice := confirmSuggestionsGate p payload
    .ok (choice.action ≠ "cancel", .gateSuggestions payload)
  else
    let message :=
      match s.confirmMessage with
      | some m => if m = "" then "続行しますか？" else m
      | none => "続行しますか？"
    .ok (confirmAsk p message true, .gateConfirm message true)

/-- Result of one iteration of the `run` loop: halt with an outcome, or
continue with the accreted input. -/
inductive StepRes where
  | halt (out : Outcome) (st : PState) (evs : List Event)
  | next (inp : JsonObj) (st : PState) (evs : List Event)

/-- One iteration of the `run` loop for step `i` (the body of the `for`
including its `try`/`catch`): execute, honour a cancellation signal
(before recording), record the result, accrete the output into the
shared input, then the confirmation gate unless auto mode. -/
def runStep (env : Env) (cfg : Cfg) (i : Nat) (s : Step) (inp : JsonObj)
    (st : PState) : StepRes :=
  let st0 : PState := { st with currentStep := i }
  let ev := Event.agentExec i s.agent inp (buildOptions cfg s)
  match executeStep env cfg s inp with
  | .error e => .halt (.error e i) { st0 with status := "error" } [ev]
  | .ok r =>
    match r.jsGet "cancelled" with
    | .error e => .halt (.error e i) { st0 with status := "error" } [ev]
    | .ok c =>
      if Json.truthyOpt c then
        .halt .cancelled { st0 with status := "cancelled" } [ev]
      else
        let st1 : PState := { st0 with results := st0.results.setKey (stepKey s) r }
        let inp' := mergeSpread inp ((r.get? "output").getD .undef)
        if s.confirm && !cfg.autoMode then
          match handleConfirmPoint env.prompter s r with
          | .error e => .halt (.error e i) { st1 with status := "error" } [ev]
          | .ok (cont, gev) =>
            if cont then .next inp' st1 [ev, gev]
            else .halt (.paused i) { st1 with status := "paused" } [ev, gev]
        else .next inp' st1 [ev]

/-- Events carried by a step outcome. -/
def StepRes.events : StepRes → List Event
  | .halt _ _ evs => evs
  | .next _ _ evs => evs

/-- The `run` loop over a list of steps, accumulating the event trace. -/
def runUpTo (env : Env) (cfg : Cfg) : List Step → Nat → JsonObj → PState →
    List Event → StepRes
  | [], _, inp, st, acc => .next inp st acc
  | s :: rest, i, inp, st, acc =>
    match runStep env cfg i s inp st with
    | .halt o st' evs => .halt o st' (acc ++ evs)
    | .next inp' st' evs => runUpTo env cfg rest (i + 1) inp' st' (acc ++ evs)

/-- Run the loop and, when it falls through, finish with `completed`. -/
def runSteps (env : Env) (cfg : Cfg) (steps : List Step) (i : Nat)
    (inp : JsonObj) (st : PState) : Outcome × PState × List Event :=
  match runUpTo env cfg steps i inp st [] with
  | .halt o st' evs => (o, st', evs)
  | .next _ st' evs => (.success st'.results, { st' with status := "completed" }, evs)

/-- `Pipeline.run(input)` on an already-loaded workflow: set status running,
copy the caller's input (`let currentInput = brace ...input brace`), then
iterate the steps from index 0 on the pipeline's current state. -/
def run (env : Env) (cfg : Cfg) (wf : Workflow) (input : Json) (st : PState) :
    Outcome × PState × List Event :=
  runSteps env cfg wf.steps 0 (Json.spreadFields input) { st with status := "running" }

/-! ## JSON text codec

`fileManager.writeJson` persists documents with `JSON.stringify(data, null, 2)`
and `readJson` recovers them with `JSON.parse`; both platform primitives are
modelled concretely below (JS numbers as integers; `\u` escapes denoting
surrogate halves are outside the model, the pipeline never produces them). -/

/-- Decimal digit character. -/
def digitChar (d : Nat) : Char :=
  match d with
  | 0 => '0' | 1 => '1' | 2 => '2' | 3 => '3' | 4 => '4'
  | 5 => '5' | 6 => '6' | 7 => '7' | 8 => '8' | _ => '9'

/-- Lower-case hexadecimal digit character. -/
def hexDigitChar (d : Nat) : Char :=
  match d with
  | 0 => '0' | 1 => '1' | 2 => '2' | 3 => '3' | 4 => '4'
  | 5 => '5' | 6 => '6' | 7 => '7' | 8 => '8' | 9 => '9'
  | 10 => 'a' | 11 => 'b' | 12 => 'c' | 13 => 'd' | 14 => 'e' | _ => 'f'

/-- Decimal digits of a natural number, most significant first (fueled so the
kernel can evaluate it; `fuel > n` suffices). -/
def natChars : Nat → Nat → List Char
  | 0, _ => []
  | fuel + 1, n =>
    if n < 10 then [digitChar n]
    else natChars fuel (n / 10) ++ [digitChar (n % 10)]

/-- Decimal rendering of an integer, as `JSON.stringify` prints it. -/
def renderInt (n : Int) : List Char :=
  if n < 0 then '-' :: natChars (n.natAbs + 1) n.natAbs
  else natChars (n.toNat + 1) n.toNat

/-- How `JSON.stringify` escapes one character inside a string literal:
quote and backslash get a backslash escape, the five named control
characters get their short escapes, other control characters become
`\u00xx`, everything else is emitted verbatim. -/
def escapeChar (c : Char) : List Char :=
  if c = '"' then ['\\', '"']
  else if c = '\\' then ['\\', '\\']
  else if c = Char.ofNat 8 then ['\\', 'b']
  else if c = Char.ofNat 9 then ['\\', 't']
  else if c = Char.ofNat 10 then ['\\', 'n']
  else if c = Char.ofNat 12 then ['\\', 'f']
  else if c = Char.ofNat 13 then ['\\', 'r']
  else if c.toNat < 32 then
    ['\\', 'u', '0', '0', hexDigitChar (c.toNat / 16), hexDigitChar (c.toNat % 16)]
  else [c]

/-- Escaped body of a string literal together with its closing quote. -/
def quoteChars : List Char → List Char
  | [] => ['"']
  | c :: t => escapeChar c ++ quoteChars t

/-- A complete JSON string literal for `s`. -/
def quote (s : String) : List Char :=
  '"' :: quoteChars s.data

/-- Indentation: `n` spaces. -/
def spacesList (n : Nat) : List Char := List.replicate n ' '

/- Recursively erase JS `undefined` the way `JSON.stringify` does:
undefined-valued object properties are dropped, undefined array elements
become null.  (A top-level `undefined` makes `JSON.stringify` return no
string at all; it is rendered as null here and never arises in the
pipeline's documents.) -/
mutual

def dropUndef : Json → Json
  | .arr xs => .arr (dropUndefArr xs)
  | .obj fields => .obj (dropUndefObj fields)
  | j => j

def dropUndefArr : JsonArr → JsonArr
  | .nil => .nil
  | .cons .undef t => .cons .null (dropUndefArr t)
  | .cons h t => .cons (dropUndef h) (dropUndefArr t)

def dropUndefObj : JsonObj → JsonObj
  | .nil => .nil
  | .cons _ .undef t => dropUndefObj t
  | .cons k v t => .cons k (dropUndef v) (dropUndefObj t)

end

/-- Join rendered pieces with `,` + newline between them. -/
def joinComma : List (List Char) → List Char
  | [] => []
  | [x] => x
  | x :: y :: t => x ++ ',' :: '\n' :: joinComma (y :: t)

/- Pretty printer of `JSON.stringify(·, null, 2)` on undefined-free values:
block layout with two-space indentation, `ind` the current indent. -/
mutual

def stringifyV : Nat → Json → List Char
  | _, .null => 'n' :: 'u' :: 'l' :: 'l' :: []
  | _, .undef => 'n' :: 'u' :: 'l' :: 'l' :: []
  | _, .bool true => 't' :: 'r' :: 'u' :: 'e' :: []
  | _, .bool false => 'f' :: 'a' :: 'l' :: 's' :: 'e' :: []
  | _, .num n => renderInt n
  | _, .str s => quote s
  | _, .arr .nil => ['[', ']']
  | ind, .arr (.cons h t) =>
      '[' :: '\n' ::
        (joinComma (stringifyList (ind + 2) (.cons h t)) ++ '\n' :: (spacesList ind ++ [']']))
  | _, .obj .nil => List.cons (Char.ofNat 123) [Char.ofNat 125]
  | ind, .obj (.cons k v t) =>
      Char.ofNat 123 :: '\n' ::
        (joinComma (stringifyFields (ind + 2) (.cons k v t)) ++ '\n' ::
          (spacesList ind ++ [Char.ofNat 125]))

def stringifyList : Nat → JsonArr → List (List Char)
  | _, .nil => []
  | ind, .cons h t => (spacesList ind ++ stringifyV ind h) :: stringifyList ind t

def stringifyFields : Nat → JsonObj → List (List Char)
  | _, .nil => []
  | ind, .cons k v t =>
      (spacesList ind ++ (quote k ++ ':' :: ' ' :: stringifyV ind v)) :: stringifyFields ind t

end

/-- JSON whitespace. -/
def isWs (c : Char) : Bool :=
  c = ' ' || c = '\t' || c = '\n' || c = '\r'

/-- Drop leading JSON whitespace. -/
def skipWs : List Char → List Char
  | [] => []
  | c :: t => if isWs c then skipWs t else c :: t

/-- Hexadecimal digit value for `\u` escapes. -/
def parseHexDigit (c : Char) : Option Nat :=
  if 48 ≤ c.toNat ∧ c.toNat ≤ 57 then some (c.toNat - 48)
  else if 97 ≤ c.toNat ∧ c.toNat ≤ 102 then some (c.toNat - 87)
  else if 65 ≤ c.toNat ∧ c.toNat ≤ 70 then some (c.toNat - 55)
  else none

/- String-literal body parser (after the opening quote), accumulating the
decoded characters in reverse. -/
mutual

def parseStringBody : List Char → List Char → Option (String × List Char)
  | [], _ => none
  | c :: rest, acc =>
    if c = '"' then some (String.mk acc.reverse, rest)
    else if c = '\\' then parseEscape rest acc
    else if c.toNat < 32 then none
    else parseStringBody rest (c :: acc)

def parseEscape : List Char → List Char → Option (String × List Char)
  | [], _ => none
  | e :: rest, acc =>
    if e = '"' then parseStringBody rest ('"' :: acc)
    else if e = '\\' then parseStringBody rest ('\\' :: acc)
    else if e = '/' then parseStringBody rest ('/' :: acc)
    else if e = 'b' then parseStringBody rest (Char.ofNat 8 :: acc)
    else if e = 't' then parseStringBody rest (Char.ofNat 9 :: acc)
    else if e = 'n' then parseStringBody rest (Char.ofNat 10 :: acc)
    else if e = 'f' then parseStringBody rest (Char.ofNat 12 :: acc)
    else if e = 'r' then parseStringBody rest (Char.ofNat 13 :: acc)
    else if e = 'u' then
      match rest with
      | h1 :: h2 :: h3 :: h4 :: r =>
        match parseHexDigit h1, parseHexDigit h2, parseHexDigit h3, parseHexDigit h4 with
        | some d1, some d2, some d3, some d4 =>
            parseStringBody r (Char.ofNat (((d1 * 16 + d2) * 16 + d3) * 16 + d4) :: acc)
        | _, _, _, _ => none
      | _ => none
    else none

end

/-- Digit-run parser: Horner-accumulate leading decimal digits. -/
def parseDigitsAux : List Char → Nat → Nat × List Char
  | [], acc => (acc, [])
  | c :: cs, acc =>
    if c.isDigit then parseDigitsAux cs (10 * acc + (c.toNat - 48))
    else (acc, c :: cs)

/-- Number body: requires at least one digit. -/
def parseNumBody (cs : List Char) : Option (Nat × List Char) :=
  match cs with
  | [] => none
  | c :: _ => if c.isDigit then some (parseDigitsAux cs 0) else none

/- Recursive-descent `JSON.parse` (fueled; integer numbers). -/
mutual

def parseVal : Nat → List Char → Option (Json × List Char)
  | 0, _ => none
  | fuel + 1, input =>
    match skipWs input with
    | [] => none
    | c :: rest =>
      if c = 'n' then
        match rest with
        | 'u' :: 'l' :: 'l' :: r => some (.null, r)
        | _ => none
      else if c = 't' then
        match rest with
        | 'r' :: 'u' :: 'e' :: r => some (.bool true, r)
        | _ => none
      else if c = 'f' then
        match rest with
        | 'a' :: 'l' :: 's' :: 'e' :: r => some (.bool false, r)
        | _ => none
      else if c = '"' then
        (parseStringBody rest []).map (fun sr => (.str sr.1, sr.2))
      else if c = '[' then
        match skipWs rest with
        | [] => none
        | d :: r2 =>
          if d = ']' then some (.arr .nil, r2)
          else (parseItems fuel rest).map (fun ir => (.arr ir.1, ir.2))
      else if c = Char.ofNat 123 then
        match skipWs rest with
        | [] => none
        | d :: r2 =>
          if d = Char.ofNat 125 then some (.obj .nil, r2)
          else (parseMembers fuel rest).map (fun mr => (.obj mr.1, mr.2))
      else if c = '-' then
        (parseNumBody rest).map (fun nr => (.num (-(nr.1 : Int)), nr.2))
      else if c.isDigit then
        (parseNumBody (c :: rest)).map (fun nr => (.num (nr.1 : Int), nr.2))
      else none

def parseItems : Nat → List Char → Option (JsonArr × List Char)
  | 0, _ => none
  | fuel + 1, input => do
    let vr ← parseVal fuel input
    match skipWs vr.2 with
    | [] => none
    | d :: r2 =>
      if d = ',' then do
        let tr ← parseItems fuel r2
        some (.cons vr.1 tr.1, tr.2)
      else if d = ']' then some (.cons vr.1 .nil, r2)
      else none

def parseMembers : Nat → List Char → Option (JsonObj × List Char)
  | 0, _ => none
  | fuel + 1, input =>
    match skipWs input with
    | [] => none
    | c :: r1 =>
      if c = '"' then do
        let kr ← parseStringBody r1 []
        match skipWs kr.2 with
        | [] => none
        | d :: r3 =>
          if d = ':' then do
            let vr ← parseVal fuel r3
            match skipWs vr.2 with
            | [] => none
            | e :: r5 =>
              if e = ',' then do
                let tr ← parseMembers fuel r5
                some (.cons kr.1 vr.1 tr.1, tr.2)
              else if e = Char.ofNat 125 then some (.cons kr.1 vr.1 .nil, r5)
              else none
          else none
      else none

end

/-- `JSON.stringify(j, null, 2)` as a Lean string. -/
def jstringify (j : Json) : String :=
  String.mk (stringifyV 0 (dropUndef j))

/-- `JSON.parse`: parse one value, allow trailing whitespace only. -/
def jparse (s : String) : Option Json :=
  match parseVal (s.length + 1) s.data with
  | some (v, rest) => if (skipWs rest).isEmpty then some v else none
  | none => none

/-! ## fileManager (shared/lib/fileManager.js) and state persistence -/

/-- The file system as a map from paths to file contents. -/
def FS : Type := String → Option String

/-- `readFileSafe(path)`: the content, or null when the file is absent. -/
def readFileSafe (fs : FS) (p : String) : Option String := fs p

/-- `readJson(path, default)`: falsy (absent or empty) content and parse
failures yield the default. -/
def readJson (fs : FS) (p : String) (default : Json) : Json :=
  match readFileSafe fs p with
  | none => default
  | some content =>
    if content = "" then default
    else
      match jparse content with
      | some v => v
      | none => default

/-- `writeJson(path, data)` (pretty by default). -/
def writeJson (fs : FS) (p : String) (data : Json) : FS :=
  fun q => if q = p then some (jstringify data) else fs q

/-- The checkpoint path `path.join(projectPath, '.pipeline_state.json')`. -/
def statePath (projectPath : String) : String :=
  projectPath ++ "/.pipeline_state.json"

/-- The `this.state` document `brace currentStep, status, results brace`. -/
def encodeState (st : PState) : Json :=
  .obj (.cons "currentStep" (.num (st.currentStep : Int))
    (.cons "status" (.str st.status)
      (.cons "results" (.obj st.results) .nil)))

/-- `Pipeline.saveState`. -/
def saveState (fs : FS) (cfg : Cfg) (st : PState) : FS :=
  writeJson fs (statePath cfg.projectPath) (encodeState st)

/-- `Pipeline.loadState`, at the document level: a falsy loaded value (in
particular the `null` default of an absent checkpoint) keeps the current
state, anything truthy replaces it wholesale. -/
def loadStateDoc (fs : FS) (cfg : Cfg) (current : Json) : Json :=
  let saved := readJson fs (statePath cfg.projectPath) .null
  if saved.truthy then saved else current

/- JSON-representability of a value as a JS object graph: no `undefined`
anywhere and no duplicate keys inside any object. -/
mutual

def representable : Json → Bool
  | .undef => false
  | .arr xs => representableArr xs
  | .obj fields => representableObj fields
  | _ => true

def representableArr : JsonArr → Bool
  | .nil => true
  | .cons h t => representable h && representableArr t

def representableObj : JsonObj → Bool
  | .nil => true
  | .cons k v t => representable v && !(t.keys.contains k) && representableObj t

end

/-! ## Derived definitions used by the statements and proofs -/

/- Parser fuel sufficient for a value (counts value nodes). -/
mutual

def jfuel : Json → Nat
  | .arr xs => 1 + jfuelArr xs
  | .obj fields => 1 + jfuelObj fields
  | _ => 1

def jfuelArr : JsonArr → Nat
  | .nil => 0
  | .cons h t => 1 + jfuel h + jfuelArr t

def jfuelObj : JsonObj → Nat
  | .nil => 0
  | .cons _ v t => 1 + jfuel v + jfuelObj t

end

/-- True when the list does not begin with a decimal digit. -/
def headNotDigit : List Char → Bool
  | [] => true
  | c :: _ => !c.isDigit

/-- The value the last assignment for `key` in an entry list would leave
(none if the key never occurs). -/
def lastWrite (l : List (String × Json)) (key : String) : Option Json :=
  l.foldl (fun acc kv => if kv.1 = key then some kv.2 else acc) none

/-! Concrete agents, prompters, environments and workflows used to
instantiate the theorems. -/

/-- Oracle answering every prompt with the empty string (select: default
option, confirm: default answer). -/
def pSilent : Prompter := ⟨fun _ _ => "", fun _ => "", fun _ _ => ""⟩

/-- Oracle declining the plain yes/no confirmation. -/
def pDecline : Prompter := ⟨fun _ _ => "", fun _ => "", fun _ _ => "n"⟩

/-- Agent succeeding with output `x = 1`. -/
def agentOkX1 : Agent :=
  ⟨"research_agent", fun _ _ =>
    .ok (.obj (.cons "success" (.bool true)
      (.cons "output" (.obj (.cons "x" (.num 1) .nil)) .nil)))⟩

/-- Agent succeeding with output `x = 2`. -/
def agentOkX2 : Agent :=
  ⟨"creative_writer_agent", fun _ _ =>
    .ok (.obj (.cons "success" (.bool true)
      (.cons "output" (.obj (.cons "x" (.num 2) .nil)) .nil)))⟩

/-- Agent succeeding with no output field. -/
def agentOkPlain : Agent :=
  ⟨"rights_checker_agent", fun _ _ =>
    .ok (.obj (.cons "success" (.bool true) .nil))⟩

/-- Agent reporting a cooperative cancellation. -/
def agentCancel : Agent :=
  ⟨"research_agent", fun _ _ =>
    .ok (.obj (.cons "success" (.bool false) (.cons "cancelled" (.bool true) .nil)))⟩

/-- Agent returning normally with `success: false` (no cancellation). -/
def agentFail : Agent :=
  ⟨"research_agent", fun _ _ =>
    .ok (.obj (.cons "success" (.bool false) (.cons "message" (.str "ng") .nil)))⟩

/-- Agent whose execution throws. -/
def agentThrow : Agent := ⟨"research_agent", fun _ _ => .error "boom"⟩

/-- Environment where no agent module loads (mock fallback everywhere). -/
def envNone : Env := ⟨fun _ => none, pSilent⟩

/-- Environment with the three x-writing/plain agents. -/
def envX : Env :=
  ⟨fun n =>
    if n = "research_agent" then some agentOkX1
    else if n = "creative_writer_agent" then some agentOkX2
    else if n = "rights_checker_agent" then some agentOkPlain
    else none, pSilent⟩

/-- Environment with the cancelling agent. -/
def envCancel : Env :=
  ⟨fun n => if n = "research_agent" then some agentCancel else none, pSilent⟩

/-- Environment with the failing agent and a declining confirm oracle. -/
def envFail : Env :=
  ⟨fun n => if n = "research_agent" then some agentFail else none, pDecline⟩

/-- Environment with the throwing agent. -/
def envThrow : Env :=
  ⟨fun n => if n = "research_agent" then some agentThrow else none, pSilent⟩

/-- A bare step for an agent name. -/
def mkStep (agentName : String) : Step := { agent := agentName }

/-- Auto-mode pipeline configuration. -/
def cfgAuto : Cfg := ⟨"/proj", true⟩

/-- Interactive (non-auto) pipeline configuration. -/
def cfgInter : Cfg := ⟨"/proj", false⟩

/-- Single-step workflow around the research agent slot. -/
def wfOne : Workflow := ⟨"w", [mkStep "research_agent"]⟩

/-- Single gated step resolved to the mock agent (whose result has no
output field), confirmation kind `trends`. -/
def wfGatedMock : Workflow :=
  ⟨"w", [{ agent := "research_agent", confirm := true, confirmType := some "trends" }]⟩

/-- Single gated failing step with the default confirmation kind. -/
def wfGatedFail : Workflow :=
  ⟨"w", [{ agent := "research_agent", confirm := true }]⟩

/-- Three-step workflow writing x twice and then reading it. -/
def wfX : Workflow :=
  ⟨"w", [mkStep "research_agent", mkStep "creative_writer_agent", mkStep "rights_checker_agent"]⟩

/-- Two plain steps (distinct keys). -/
def wfTwo : Workflow :=
  ⟨"w", [mkStep "research_agent", { agent := "creative_writer_agent", id := some "m" }]⟩

/-- An empty file system. -/
def fsEmpty : FS := fun _ => none

/-- A sample mid-run pipeline state. -/
def stDemo : PState := ⟨2, "paused", .cons "a" (.num 1) .nil⟩

end Cursor
namespace Cursor

/-- Lookup after a JS property assignment. -/
theorem JsonObj.setKey_lookup : ∀ (o : JsonObj) (k : String) (v : Json) (key : String),
    (o.setKey k v).lookup key = if k = key then some v else o.lookup key
  | .nil, k, v, key => by simp [JsonObj.setKey, JsonObj.lookup]
  | .cons k' w t, k, v, key => by
    by_cases h : k' = k
    · subst h
      simp only [JsonObj.setKey, if_pos rfl, JsonObj.lookup]
      by_cases h2 : k' = key <;> simp [h2]
    · simp only [JsonObj.setKey, if_neg h, JsonObj.lookup]
      by_cases h2 : k' = key
      · subst h2
        have : ¬ (k = k') := fun hh => h hh.symm
        simp [this]
      · simp [h2, JsonObj.setKey_lookup t k v key]

/-- Keys after assigning a fresh key. -/
theorem JsonObj.setKey_keys_of_not_mem : ∀ (o : JsonObj) (k : String) (v : Json),
    k ∉ o.keys → (o.setKey k v).keys = o.keys ++ [k]
  | .nil, k, v, _ => by simp [JsonObj.setKey, JsonObj.keys]
  | .cons k' w t, k, v, h => by
    simp only [JsonObj.keys, List.mem_cons] at h
    push_neg at h
    have hne : ¬ (k' = k) := fun hh => h.1 hh.symm
    simp [JsonObj.setKey, hne, JsonObj.keys, JsonObj.setKey_keys_of_not_mem t k v h.2]

/-- Keys after assigning an existing key. -/
theorem JsonObj.setKey_keys_of_mem : ∀ (o : JsonObj) (k : String) (v : Json),
    k ∈ o.keys → (o.setKey k v).keys = o.keys
  | .cons k' w t, k, v, h => by
    by_cases hne : k' = k
    · simp [JsonObj.setKey, hne, JsonObj.keys]
    · simp only [JsonObj.keys, List.mem_cons] at h
      rcases h with h | h
      · exact absurd h.symm hne
      · simp [JsonObj.setKey, hne, JsonObj.keys, JsonObj.setKey_keys_of_mem t k v h]

/-- Digit characters are digits. -/
theorem digitChar_isDigit (d : Nat) (h : d < 10) : (digitChar d).isDigit = true := by
  interval_cases d <;> decide

/-- Digit characters decode to their value. -/
theorem digitChar_toNat (d : Nat) (h : d < 10) : (digitChar d).toNat - 48 = d := by
  interval_cases d <;> decide

/-- Every character `natChars` emits is a digit. -/
theorem natChars_all_digit : ∀ (fuel n : Nat), ∀ c ∈ natChars fuel n, c.isDigit = true
  | 0, _ => by simp [natChars]
  | fuel + 1, n => by
    intro c hc
    simp only [natChars] at hc
    by_cases h : n < 10
    · simp [h] at hc
      subst hc
      exact digitChar_isDigit n h
    · simp only [if_neg h, List.mem_append, List.mem_singleton] at hc
      rcases hc with hc | hc
      · exact natChars_all_digit fuel (n / 10) c hc
      · subst hc
        exact digitChar_isDigit (n % 10) (Nat.mod_lt _ (by omega))

/-- `natChars` is nonempty given enough fuel. -/
theorem natChars_ne_nil : ∀ (fuel n : Nat), n < fuel → natChars fuel n ≠ []
  | fuel + 1, n, _ => by
    simp only [natChars]
    by_cases h : n < 10
    · simp [h]
    · simp [h]

/-- Horner fold over the digits `natChars` emits. -/
theorem natChars_foldl : ∀ (fuel n acc : Nat), n < fuel →
    (natChars fuel n).foldl (fun a c => 10 * a + (c.toNat - 48)) acc =
      acc * 10 ^ (natChars fuel n).length + n
  | fuel + 1, n, acc, hlt => by
    simp only [natChars]
    by_cases h : n < 10
    · simp [h, List.foldl, digitChar_toNat n h]
      ring
    · have hdiv : n / 10 < fuel := by
        have h1 : n / 10 < n := Nat.div_lt_self (by omega) (by omega)
        omega
      simp only [if_neg h, List.foldl_append, List.length_append, List.length_singleton,
        List.foldl_cons, List.foldl_nil]
      rw [natChars_foldl fuel (n / 10) acc hdiv, digitChar_toNat (n % 10) (Nat.mod_lt _ (by omega))]
      rw [pow_succ]
      have := Nat.div_add_mod n 10
      ring_nf
      omega

end Cursor
namespace Cursor

/-- Digit-run parser consumes exactly a digit prefix, Horner-folding it. -/
theorem parseDigitsAux_spec : ∀ (ds rest : List Char) (acc : Nat),
    (∀ c ∈ ds, c.isDigit = true) → headNotDigit rest = true →
    parseDigitsAux (ds ++ rest) acc = (ds.foldl (fun a c => 10 * a + (c.toNat - 48)) acc, rest)
  | [], rest, acc, _, hrest => by
    cases rest with
    | nil => simp [parseDigitsAux]
    | cons c cs =>
      simp only [headNotDigit, Bool.not_eq_true'] at hrest
      simp [parseDigitsAux, hrest]
  | c :: ds, rest, acc, hds, hrest => by
    have hc : c.isDigit = true := hds c (List.mem_cons_self ..)
    simp only [List.cons_append, parseDigitsAux, hc, if_pos, List.foldl_cons]
    exact parseDigitsAux_spec ds rest _ (fun x hx => hds x (List.mem_cons_of_mem _ hx)) hrest

/-- The decimal rendering of `n` parses back to `n`. -/
theorem parseNumBody_natChars (n : Nat) (rest : List Char) (hrest : headNotDigit rest = true) :
    parseNumBody (natChars (n + 1) n ++ rest) = some (n, rest) := by
  obtain ⟨c, ds, hds⟩ : ∃ c ds, natChars (n + 1) n = c :: ds := by
    cases h : natChars (n + 1) n with
    | nil => exact absurd h (natChars_ne_nil (n + 1) n (Nat.lt_succ_self n))
    | cons c ds => exact ⟨c, ds, rfl⟩
  have hall := natChars_all_digit (n + 1) n
  have hc : c.isDigit = true := hall c (by rw [hds]; exact List.mem_cons_self ..)
  rw [hds]
  simp only [List.cons_append, parseNumBody, hc, if_pos]
  rw [← List.cons_append, parseDigitsAux_spec (c :: ds) rest 0 (by rw [← hds]; exact hall) hrest,
    ← hds, natChars_foldl (n + 1) n 0 (Nat.lt_succ_self n)]
  simp

/-- Leading whitespace is skipped. -/
theorem skipWs_append_of_ws : ∀ (u s : List Char), (∀ c ∈ u, isWs c = true) →
    skipWs (u ++ s) = skipWs s
  | [], _, _ => rfl
  | c :: u, s, h => by
    have hc := h c (List.mem_cons_self ..)
    simp [skipWs, hc, skipWs_append_of_ws u s (fun x hx => h x (List.mem_cons_of_mem _ hx))]

/-- A non-whitespace head is left alone. -/
theorem skipWs_cons_of_not_ws (c : Char) (s : List Char) (h : isWs c = false) :
    skipWs (c :: s) = c :: s := by
  simp [skipWs, h]

/-- `parseVal` ignores leading whitespace. -/
theorem parseVal_ws (fuel : Nat) (u s : List Char) (h : ∀ c ∈ u, isWs c = true) :
    parseVal fuel (u ++ s) = parseVal fuel s := by
  cases fuel with
  | zero => rfl
  | succ f => simp only [parseVal, skipWs_append_of_ws u s h]

/-- Spaces are whitespace. -/
theorem spacesList_ws (n : Nat) : ∀ c ∈ spacesList n, isWs c = true := by
  intro c hc
  have : c = ' ' := List.eq_of_mem_replicate hc
  subst this
  decide

/-- A decimal digit is not whitespace, a bracket, a comma, or any other
token-initial character the value dispatcher tests first. -/
theorem digit_classify (c : Char) (h : c.isDigit = true) :
    c ≠ 'n' ∧ c ≠ 't' ∧ c ≠ 'f' ∧ c ≠ '"' ∧ c ≠ '[' ∧ c ≠ Char.ofNat 123 ∧ c ≠ '-' ∧
      isWs c = false ∧ c ≠ ']' ∧ c ≠ Char.ofNat 125 ∧ c ≠ ',' ∧ c ≠ ':' := by
  have hv : 48 ≤ c.toNat ∧ c.toNat ≤ 57 := by
    unfold Char.isDigit at h
    rw [Bool.and_eq_true, decide_eq_true_iff, decide_eq_true_iff] at h
    exact ⟨h.1, h.2⟩
  have hsp : c ≠ ' ' := fun hh => by subst hh; exact absurd hv (by decide)
  have htab : c ≠ '\t' := fun hh => by subst hh; exact absurd hv (by decide)
  have hnl : c ≠ '\n' := fun hh => by subst hh; exact absurd hv (by decide)
  have hcr : c ≠ '\r' := fun hh => by subst hh; exact absurd hv (by decide)
  refine ⟨fun hh => by subst hh; exact absurd hv (by decide),
    fun hh => by subst hh; exact absurd hv (by decide),
    fun hh => by subst hh; exact absurd hv (by decide),
    fun hh => by subst hh; exact absurd hv (by decide),
    fun hh => by subst hh; exact absurd hv (by decide),
    fun hh => by subst hh; exact absurd hv (by decide),
    fun hh => by subst hh; exact absurd hv (by decide),
    ?_,
    fun hh => by subst hh; exact absurd hv (by decide),
    fun hh => by subst hh; exact absurd hv (by decide),
    fun hh => by subst hh; exact absurd hv (by decide),
    fun hh => by subst hh; exact absurd hv (by decide)⟩
  simp [isWs, hsp, htab, hnl, hcr]

/-- The head of a rendered integer: a minus sign or a digit. -/
theorem renderInt_shape (n : Int) :
    ∃ c cs, renderInt n = c :: cs ∧ (c = '-' ∨ c.isDigit = true) := by
  unfold renderInt
  by_cases h : n < 0
  · exact ⟨'-', natChars (n.natAbs + 1) n.natAbs, by simp [h], Or.inl rfl⟩
  · simp only [if_neg h]
    obtain ⟨c, ds, hds⟩ : ∃ c ds, natChars (n.toNat + 1) n.toNat = c :: ds := by
      cases hx : natChars (n.toNat + 1) n.toNat with
      | nil => exact absurd hx (natChars_ne_nil _ _ (Nat.lt_succ_self _))
      | cons c ds => exact ⟨c, ds, rfl⟩
    refine ⟨c, ds, hds, Or.inr ?_⟩
    exact natChars_all_digit _ _ c (by rw [hds]; exact List.mem_cons_self ..)

/-- The head of any rendered value is a non-whitespace character that is
not a closing bracket, closing brace, or comma. -/
theorem sv_shape : ∀ (ind : Nat) (v : Json), ∃ c cs, stringifyV ind v = c :: cs ∧
    isWs c = false ∧ c ≠ ']' ∧ c ≠ Char.ofNat 125 ∧ c ≠ ','
  | ind, .null => ⟨'n', _, rfl, by decide, by decide, by decide, by decide⟩
  | ind, .undef => ⟨'n', _, rfl, by decide, by decide, by decide, by decide⟩
  | ind, .bool true => ⟨'t', _, rfl, by decide, by decide, by decide, by decide⟩
  | ind, .bool false => ⟨'f', _, rfl, by decide, by decide, by decide, by decide⟩
  | ind, .num n => by
    obtain ⟨c, cs, hcs, hc⟩ := renderInt_shape n
    refine ⟨c, cs, hcs, ?_, ?_, ?_, ?_⟩ <;>
      rcases hc with hc | hc
    · subst hc; decide
    · exact (digit_classify c hc).2.2.2.2.2.2.2.1
    · subst hc; decide
    · exact (digit_classify c hc).2.2.2.2.2.2.2.2.1
    · subst hc; decide
    · exact (digit_classify c hc).2.2.2.2.2.2.2.2.2.1
    · subst hc; decide
    · exact (digit_classify c hc).2.2.2.2.2.2.2.2.2.2.1
  | ind, .str s => ⟨'"', _, rfl, by decide, by decide, by decide, by decide⟩
  | ind, .arr .nil => ⟨'[', _, rfl, by decide, by decide, by decide, by decide⟩
  | ind, .arr (.cons h t) => ⟨'[', _, rfl, by decide, by decide, by decide, by decide⟩
  | ind, .obj .nil => ⟨Char.ofNat 123, _, rfl, by decide, by decide, by decide, by decide⟩
  | ind, .obj (.cons k v t) => ⟨Char.ofNat 123, _, rfl, by decide, by decide, by decide, by decide⟩

end Cursor
namespace Cursor

theorem parseHexDigit_hexDigitChar (d : Nat) (h : d < 16) :
    parseHexDigit (hexDigitChar d) = some d := by
  interval_cases d <;> decide

theorem psb_quote_head (rest acc : List Char) :
    parseStringBody ('"' :: rest) acc = some (String.mk acc.reverse, rest) := by
  simp [parseStringBody]

theorem psb_backslash (rest acc : List Char) :
    parseStringBody ('\\' :: rest) acc = parseEscape rest acc := by
  simp [parseStringBody]

theorem psb_plain (c : Char) (rest acc : List Char) (hq : c ≠ '"') (hb : c ≠ '\\')
    (hc : ¬ c.toNat < 32) :
    parseStringBody (c :: rest) acc = parseStringBody rest (c :: acc) := by
  simp [parseStringBody, hq, hb, hc]

theorem pesc_quote (rest acc : List Char) :
    parseEscape ('"' :: rest) acc = parseStringBody rest ('"' :: acc) := by
  simp [parseEscape]

theorem pesc_backslash (rest acc : List Char) :
    parseEscape ('\\' :: rest) acc = parseStringBody rest ('\\' :: acc) := by
  simp [parseEscape]

theorem pesc_b (rest acc : List Char) :
    parseEscape ('b' :: rest) acc = parseStringBody rest (Char.ofNat 8 :: acc) := by
  simp [parseEscape]

theorem pesc_t (rest acc : List Char) :
    parseEscape ('t' :: rest) acc = parseStringBody rest (Char.ofNat 9 :: acc) := by
  simp [parseEscape]

theorem pesc_n (rest acc : List Char) :
    parseEscape ('n' :: rest) acc = parseStringBody rest (Char.ofNat 10 :: acc) := by
  simp [parseEscape]

theorem pesc_f (rest acc : List Char) :
    parseEscape ('f' :: rest) acc = parseStringBody rest (Char.ofNat 12 :: acc) := by
  simp [parseEscape]

theorem pesc_r (rest acc : List Char) :
    parseEscape ('r' :: rest) acc = parseStringBody rest (Char.ofNat 13 :: acc) := by
  simp [parseEscape]

theorem pesc_u (h1 h2 h3 h4 : Char) (r acc : List Char) (d1 d2 d3 d4 : Nat)
    (e1 : parseHexDigit h1 = some d1) (e2 : parseHexDigit h2 = some d2)
    (e3 : parseHexDigit h3 = some d3) (e4 : parseHexDigit h4 = some d4) :
    parseEscape ('u' :: h1 :: h2 :: h3 :: h4 :: r) acc =
      parseStringBody r (Char.ofNat (((d1 * 16 + d2) * 16 + d3) * 16 + d4) :: acc) := by
  simp [parseEscape, e1, e2, e3, e4]

/-- The escaped body of a string literal parses back to the original
characters (accumulated in reverse), leaving exactly the tail. -/
theorem parseStringBody_quoteChars (cs : List Char) : ∀ (acc rest : List Char),
    parseStringBody (quoteChars cs ++ rest) acc = some (String.mk (acc.reverse ++ cs), rest) := by
  induction cs with
  | nil =>
    intro acc rest
    simp only [quoteChars, List.cons_append, List.nil_append, psb_quote_head]
    simp
  | cons c cs ihAll =>
    intro acc rest
    have ih := fun acc2 => ihAll acc2 rest
    by_cases h1 : c = '"'
    · subst h1
      have e : escapeChar '"' = ['\\', '"'] := rfl
      simp only [quoteChars, e, List.cons_append, List.append_assoc, List.nil_append,
        psb_backslash, pesc_quote, ih]
      simp
    · by_cases h2 : c = '\\'
      · subst h2
        have e : escapeChar '\\' = ['\\', '\\'] := rfl
        simp only [quoteChars, e, List.cons_append, List.append_assoc, List.nil_append,
          psb_backslash, pesc_backslash, ih]
        simp
      · by_cases h3 : c = Char.ofNat 8
        · subst h3
          have e : escapeChar (Char.ofNat 8) = ['\\', 'b'] := rfl
          simp only [quoteChars, e, List.cons_append, List.append_assoc, List.nil_append,
            psb_backslash, pesc_b, ih]
          simp
        · by_cases h4 : c = Char.ofNat 9
          · subst h4
            have e : escapeChar (Char.ofNat 9) = ['\\', 't'] := rfl
            simp only [quoteChars, e, List.cons_append, List.append_assoc, List.nil_append,
              psb_backslash, pesc_t, ih]
            simp
          · by_cases h5 : c = Char.ofNat 10
            · subst h5
              have e : escapeChar (Char.ofNat 10) = ['\\', 'n'] := rfl
              simp only [quoteChars, e, List.cons_append, List.append_assoc, List.nil_append,
                psb_backslash, pesc_n, ih]
              simp
            · by_cases h6 : c = Char.ofNat 12
              · subst h6
                have e : escapeChar (Char.ofNat 12) = ['\\', 'f'] := rfl
                simp only [quoteChars, e, List.cons_append, List.append_assoc, List.nil_append,
                  psb_backslash, pesc_f, ih]
                simp
              · by_cases h7 : c = Char.ofNat 13
                · subst h7
                  have e : escapeChar (Char.ofNat 13) = ['\\', 'r'] := rfl
                  simp only [quoteChars, e, List.cons_append, List.append_assoc, List.nil_append,
                    psb_backslash, pesc_r, ih]
                  simp
                · by_cases h8 : c.toNat < 32
                  · have e : escapeChar c =
                        ['\\', 'u', '0', '0', hexDigitChar (c.toNat / 16), hexDigitChar (c.toNat % 16)] := by
                      unfold escapeChar
                      simp [h1, h2, h3, h4, h5, h6, h7, h8]
                    have harith : ((0 * 16 + 0) * 16 + c.toNat / 16) * 16 + c.toNat % 16 = c.toNat := by
                      omega
                    simp only [quoteChars, e, List.cons_append, List.append_assoc, List.nil_append,
                      psb_backslash]
                    rw [pesc_u '0' '0' (hexDigitChar (c.toNat / 16)) (hexDigitChar (c.toNat % 16))
                      _ _ 0 0 (c.toNat / 16) (c.toNat % 16) rfl rfl
                      (parseHexDigit_hexDigitChar _ (by omega))
                      (parseHexDigit_hexDigitChar _ (by omega))]
                    rw [harith, Char.ofNat_toNat, ih]
                    simp
                  · have e : escapeChar c = [c] := by
                      unfold escapeChar
                      simp [h1, h2, h3, h4, h5, h6, h7, h8]
                    simp only [quoteChars, e, List.cons_append, List.nil_append,
                      psb_plain c _ _ h1 h2 h8, ih]
                    simp

/-- A full string literal body (with closing quote) parses to the string. -/
theorem parseStringBody_quote (s : String) (rest : List Char) :
    parseStringBody (quoteChars s.data ++ rest) [] = some (s, rest) := by
  rw [parseStringBody_quoteChars s.data [] rest]
  cases s with
  | mk data => simp

end Cursor
namespace Cursor

theorem pv_null (f : Nat) (rest : List Char) :
    parseVal (f + 1) ('n' :: 'u' :: 'l' :: 'l' :: rest) = some (.null, rest) := by
  simp [parseVal, skipWs, isWs]

theorem pv_true (f : Nat) (rest : List Char) :
    parseVal (f + 1) ('t' :: 'r' :: 'u' :: 'e' :: rest) = some (.bool true, rest) := by
  simp [parseVal, skipWs, isWs]

theorem pv_false (f : Nat) (rest : List Char) :
    parseVal (f + 1) ('f' :: 'a' :: 'l' :: 's' :: 'e' :: rest) = some (.bool false, rest) := by
  simp [parseVal, skipWs, isWs]

theorem pv_quote (f : Nat) (s : List Char) :
    parseVal (f + 1) ('"' :: s) =
      (parseStringBody s []).map (fun sr => (.str sr.1, sr.2)) := by
  simp [parseVal, skipWs, isWs]

theorem pv_bracket (f : Nat) (s : List Char) :
    parseVal (f + 1) ('[' :: s) =
      (match skipWs s with
       | [] => none
       | d :: r2 =>
         if d = ']' then some (.arr .nil, r2)
         else (parseItems f s).map (fun ir => (.arr ir.1, ir.2))) := by
  simp [parseVal, skipWs, isWs]

theorem pv_brace (f : Nat) (s : List Char) :
    parseVal (f + 1) (Char.ofNat 123 :: s) =
      (match skipWs s with
       | [] => none
       | d :: r2 =>
         if d = Char.ofNat 125 then some (.obj .nil, r2)
         else (parseMembers f s).map (fun mr => (.obj mr.1, mr.2))) := by
  simp [parseVal, skipWs, isWs]

theorem pv_minus (f : Nat) (s : List Char) :
    parseVal (f + 1) ('-' :: s) =
      (parseNumBody s).map (fun nr => (.num (-(nr.1 : Int)), nr.2)) := by
  simp [parseVal, skipWs, isWs]

theorem pv_digit (f : Nat) (c : Char) (s : List Char) (hc : c.isDigit = true) :
    parseVal (f + 1) (c :: s) =
      (parseNumBody (c :: s)).map (fun nr => (.num (nr.1 : Int), nr.2)) := by
  obtain ⟨hn, ht, hf, hq, hbr, hbc, hm, hws, _, _, _, _⟩ := digit_classify c hc
  simp [parseVal, skipWs, hws, hn, ht, hf, hq, hbr, hbc, hm, hc]

theorem pi_succ (f : Nat) (input : List Char) :
    parseItems (f + 1) input =
      (parseVal f input).bind (fun vr =>
        match skipWs vr.2 with
        | [] => none
        | d :: r2 =>
          if d = ',' then (parseItems f r2).bind (fun tr => some (.cons vr.1 tr.1, tr.2))
          else if d = ']' then some (.cons vr.1 .nil, r2)
          else none) := rfl

theorem pm_succ (f : Nat) (input : List Char) :
    parseMembers (f + 1) input =
      (match skipWs input with
       | [] => none
       | c :: r1 =>
         if c = '"' then
           (parseStringBody r1 []).bind (fun kr =>
             match skipWs kr.2 with
             | [] => none
             | d :: r3 =>
               if d = ':' then
                 (parseVal f r3).bind (fun vr =>
                   match skipWs vr.2 with
                   | [] => none
                   | e :: r5 =>
                     if e = ',' then
                       (parseMembers f r5).bind (fun tr => some (.cons kr.1 vr.1 tr.1, tr.2))
                     else if e = Char.ofNat 125 then some (.cons kr.1 vr.1 .nil, r5)
                     else none)
               else none)
         else none) := rfl

end Cursor
namespace Cursor

theorem hnd_nl (l : List Char) : headNotDigit ('\n' :: l) = true := rfl

theorem hnd_comma (l : List Char) : headNotDigit (',' :: l) = true := rfl

theorem skipWs_nl (l : List Char) : skipWs ('\n' :: l) = skipWs l := by
  simp [skipWs, isWs]

theorem skipWs_colon (l : List Char) : skipWs (':' :: l) = ':' :: l := by
  simp [skipWs, isWs]

theorem skipWs_comma (l : List Char) : skipWs (',' :: l) = ',' :: l := by
  simp [skipWs, isWs]

theorem jfuel_pos : ∀ v : Json, 1 ≤ jfuel v
  | .null => by simp [jfuel]
  | .undef => by simp [jfuel]
  | .bool _ => by simp [jfuel]
  | .num _ => by simp [jfuel]
  | .str _ => by simp [jfuel]
  | .arr _ => by simp [jfuel]
  | .obj _ => by simp [jfuel]

theorem ws_append {u v : List Char} (hu : ∀ c ∈ u, isWs c = true)
    (hv : ∀ c ∈ v, isWs c = true) : ∀ c ∈ u ++ v, isWs c = true := by
  intro c hc
  rcases List.mem_append.1 hc with h | h
  · exact hu c h
  · exact hv c h

/-- After the newline that opens a rendered non-empty array, skipping
whitespace lands on the first element's head character, which is not a
closing bracket or brace. -/
theorem skipWs_items_head (ind : Nat) (h : Json) (t : JsonArr) (X : List Char) :
    ∃ c0 Y, skipWs ('\n' :: (joinComma (stringifyList ind (.cons h t)) ++ X)) = c0 :: Y ∧
      c0 ≠ ']' ∧ c0 ≠ Char.ofNat 125 := by
  obtain ⟨c0, cs0, hsv, hws, hbr, hbc, _⟩ := sv_shape ind h
  cases t with
  | nil =>
    refine ⟨c0, cs0 ++ X, ?_, hbr, hbc⟩
    rw [skipWs_nl]
    show skipWs ((spacesList ind ++ stringifyV ind h) ++ X) = _
    rw [List.append_assoc, skipWs_append_of_ws _ _ (spacesList_ws ind), hsv, List.cons_append,
      skipWs_cons_of_not_ws _ _ hws]
  | cons h2 t2 =>
    refine ⟨c0, cs0 ++ (',' :: '\n' :: (joinComma (stringifyList ind (.cons h2 t2)) ++ X)),
      ?_, hbr, hbc⟩
    rw [skipWs_nl]
    show skipWs (((spacesList ind ++ stringifyV ind h) ++
      ',' :: '\n' :: joinComma (stringifyList ind (.cons h2 t2))) ++ X) = _
    rw [List.append_assoc, List.append_assoc, skipWs_append_of_ws _ _ (spacesList_ws ind), hsv,
      List.cons_append, skipWs_cons_of_not_ws _ _ hws]
    simp

/-- After the newline that opens a rendered non-empty object, skipping
whitespace lands on the opening quote of the first key. -/
theorem skipWs_fields_head (ind : Nat) (k : String) (v : Json) (t : JsonObj) (X : List Char) :
    ∃ Y, skipWs ('\n' :: (joinComma (stringifyFields ind (.cons k v t)) ++ X)) = '"' :: Y := by
  cases t with
  | nil =>
    refine ⟨quoteChars k.data ++ (':' :: ' ' :: stringifyV ind v ++ X), ?_⟩
    rw [skipWs_nl]
    show skipWs ((spacesList ind ++ ('"' :: quoteChars k.data ++ ':' :: ' ' :: stringifyV ind v)) ++ X) = _
    rw [List.append_assoc, skipWs_append_of_ws _ _ (spacesList_ws ind)]
    rw [show (('"' :: quoteChars k.data ++ ':' :: ' ' :: stringifyV ind v) ++ X) =
      ('"' :: (quoteChars k.data ++ (':' :: ' ' :: stringifyV ind v ++ X))) by simp]
    rw [skipWs_cons_of_not_ws _ _ (by decide)]
  | cons k2 v2 t2 =>
    refine ⟨quoteChars k.data ++ (':' :: ' ' :: stringifyV ind v ++
      (',' :: '\n' :: (joinComma (stringifyFields ind (.cons k2 v2 t2)) ++ X))), ?_⟩
    rw [skipWs_nl]
    show skipWs (((spacesList ind ++ ('"' :: quoteChars k.data ++ ':' :: ' ' :: stringifyV ind v)) ++
      ',' :: '\n' :: joinComma (stringifyFields ind (.cons k2 v2 t2))) ++ X) = _
    rw [List.append_assoc, List.append_assoc, skipWs_append_of_ws _ _ (spacesList_ws ind)]
    rw [show (('"' :: quoteChars k.data ++ ':' :: ' ' :: stringifyV ind v) ++
        (',' :: '\n' :: joinComma (stringifyFields ind (.cons k2 v2 t2)) ++ X)) =
      ('"' :: (quoteChars k.data ++ (':' :: ' ' :: stringifyV ind v ++
        (',' :: '\n' :: (joinComma (stringifyFields ind (.cons k2 v2 t2)) ++ X))))) by simp]
    rw [skipWs_cons_of_not_ws _ _ (by decide)]

mutual

theorem rtV (v : Json) : ∀ (f ind : Nat) (rest : List Char),
    representable v = true → jfuel v ≤ f + 1 → headNotDigit rest = true →
    parseVal (f + 1) (stringifyV ind v ++ rest) = some (v, rest) := by
  cases v with
  | null =>
    intro f ind rest _ _ _
    simpa [stringifyV] using pv_null f rest
  | undef =>
    intro f ind rest hrep _ _
    simp [representable] at hrep
  | bool b =>
    intro f ind rest _ _ _
    cases b
    · simpa [stringifyV] using pv_false f rest
    · simpa [stringifyV] using pv_true f rest
  | num n =>
    intro f ind rest _ _ hrest
    simp only [stringifyV]
    unfold renderInt
    by_cases hneg : n < 0
    · simp only [if_pos hneg, List.cons_append]
      rw [pv_minus, parseNumBody_natChars _ _ hrest]
      have hval : -((n.natAbs : Nat) : Int) = n := by omega
      simp only [Option.map_some']
      rw [hval]
    · simp only [if_neg hneg]
      obtain ⟨c, ds, hds⟩ : ∃ c ds, natChars (n.toNat + 1) n.toNat = c :: ds := by
        cases hx : natChars (n.toNat + 1) n.toNat with
        | nil => exact absurd hx (natChars_ne_nil _ _ (Nat.lt_succ_self _))
        | cons c ds => exact ⟨c, ds, rfl⟩
      have hc : c.isDigit = true :=
        natChars_all_digit _ _ c (by rw [hds]; exact List.mem_cons_self ..)
      rw [hds, List.cons_append, pv_digit f c _ hc, ← List.cons_append, ← hds,
        parseNumBody_natChars n.toNat rest hrest]
      have hval : ((n.toNat : Nat) : Int) = n := by omega
      simp [hval]
  | str s =>
    intro f ind rest _ _ _
    simp only [stringifyV, quote, List.cons_append]
    rw [pv_quote, parseStringBody_quote]
    simp
  | arr xs =>
    cases xs with
    | nil =>
      intro f ind rest _ _ _
      simp only [stringifyV]
      show parseVal (f + 1) ('[' :: (']' :: rest)) = _
      rw [pv_bracket]
      have hsk : skipWs (']' :: rest) = ']' :: rest :=
        skipWs_cons_of_not_ws _ _ (by decide)
      simp [hsk]
    | cons h t =>
      intro f ind rest hrep hfe hrest
      have hrep2 : representable h = true ∧ representableArr t = true := by
        have h1 : representableArr (.cons h t) = true := by
          simpa [representable] using hrep
        simpa [representableArr, Bool.and_eq_true] using h1
      have hfe2 : jfuelArr (.cons h t) ≤ f := by
        have he : jfuel (.arr (.cons h t)) = 1 + jfuelArr (.cons h t) := by simp [jfuel]
        omega
      simp only [stringifyV, List.cons_append]
      rw [pv_bracket]
      obtain ⟨c0, Y, hskip, hbr, _⟩ := skipWs_items_head (ind + 2) h t
        (('\n' :: (spacesList ind ++ [']'])) ++ rest)
      have harr : ((joinComma (stringifyList (ind + 2) (.cons h t)) ++
            '\n' :: (spacesList ind ++ [']'])) ++ rest) =
          (joinComma (stringifyList (ind + 2) (.cons h t)) ++
            (('\n' :: (spacesList ind ++ [']'])) ++ rest)) := by
        simp
      rw [harr, hskip]
      simp only [if_neg hbr]
      have hitems := rtItems h t f (ind + 2) ['\n'] (spacesList ind) rest hrep2.1 hrep2.2 hfe2
        (by intro c hc; simp at hc; subst hc; decide) (spacesList_ws ind)
      have hmold : ('\n' :: (joinComma (stringifyList (ind + 2) (.cons h t)) ++
          (('\n' :: (spacesList ind ++ [']'])) ++ rest))) =
          (['\n'] ++ (joinComma (stringifyList (ind + 2) (.cons h t)) ++
            '\n' :: (spacesList ind ++ (']' :: rest)))) := by
        simp
      rw [hmold, hitems]
      simp
  | obj fields =>
    cases fields with
    | nil =>
      intro f ind rest _ _ _
      simp only [stringifyV]
      show parseVal (f + 1) (Char.ofNat 123 :: (Char.ofNat 125 :: rest)) = _
      rw [pv_brace]
      have hsk : skipWs (Char.ofNat 125 :: rest) = Char.ofNat 125 :: rest :=
        skipWs_cons_of_not_ws _ _ (by decide)
      simp [hsk]
    | cons k v t =>
      intro f ind rest hrep hfe hrest
      have hrep2 : representable v = true ∧ representableObj t = true := by
        have h1 : representableObj (.cons k v t) = true := by
          simpa [representable] using hrep
        simp only [representableObj, Bool.and_eq_true] at h1
        exact ⟨h1.1.1, h1.2⟩
      have hfe2 : jfuelObj (.cons k v t) ≤ f := by
        have he : jfuel (.obj (.cons k v t)) = 1 + jfuelObj (.cons k v t) := by simp [jfuel]
        omega
      simp only [stringifyV, List.cons_append]
      rw [pv_brace]
      obtain ⟨Y, hskip⟩ := skipWs_fields_head (ind + 2) k v t
        (('\n' :: (spacesList ind ++ [Char.ofNat 125])) ++ rest)
      have harr : ((joinComma (stringifyFields (ind + 2) (.cons k v t)) ++
            '\n' :: (spacesList ind ++ [Char.ofNat 125])) ++ rest) =
          (joinComma (stringifyFields (ind + 2) (.cons k v t)) ++
            (('\n' :: (spacesList ind ++ [Char.ofNat 125])) ++ rest)) := by
        simp
      rw [harr, hskip]
      simp only [if_neg (show ¬ ('"' = Char.ofNat 125) by decide)]
      have hflds := rtFields k v t f (ind + 2) ['\n'] (spacesList ind) rest hrep2.1 hrep2.2 hfe2
        (by intro c hc; simp at hc; subst hc; decide) (spacesList_ws ind)
      have hmold : ('\n' :: (joinComma (stringifyFields (ind + 2) (.cons k v t)) ++
          (('\n' :: (spacesList ind ++ [Char.ofNat 125])) ++ rest))) =
          (['\n'] ++ (joinComma (stringifyFields (ind + 2) (.cons k v t)) ++
            '\n' :: (spacesList ind ++ (Char.ofNat 125 :: rest)))) := by
        simp
      rw [hmold, hflds]
      simp
termination_by sizeOf v

theorem rtItems (h : Json) (t : JsonArr) : ∀ (f ind : Nat) (u w rest : List Char),
    representable h = true → representableArr t = true → jfuelArr (.cons h t) ≤ f →
    (∀ c ∈ u, isWs c = true) → (∀ c ∈ w, isWs c = true) →
    parseItems f (u ++ (joinComma (stringifyList ind (.cons h t)) ++
      '\n' :: (w ++ (']' :: rest)))) = some (.cons h t, rest) := by
  intro f ind u w rest hh ht hfe hu hw
  obtain ⟨g, rfl⟩ : ∃ g, f = g + 1 := ⟨f - 1, by simp [jfuelArr] at hfe; omega⟩
  have hjv : jfuel h ≤ g := by simp [jfuelArr] at hfe; omega
  obtain ⟨g2, rfl⟩ : ∃ g2, g = g2 + 1 := ⟨g - 1, by have := jfuel_pos h; omega⟩
  cases t with
  | nil =>
    have hJ : joinComma (stringifyList ind (JsonArr.cons h .nil)) =
        spacesList ind ++ stringifyV ind h := rfl
    have hv : parseVal (g2 + 1) (u ++ (joinComma (stringifyList ind (JsonArr.cons h .nil)) ++
        '\n' :: (w ++ (']' :: rest)))) = some (h, '\n' :: (w ++ (']' :: rest))) := by
      rw [hJ, show (u ++ ((spacesList ind ++ stringifyV ind h) ++ '\n' :: (w ++ (']' :: rest)))) =
        ((u ++ spacesList ind) ++ (stringifyV ind h ++ '\n' :: (w ++ (']' :: rest)))) by simp]
      rw [parseVal_ws _ _ _ (ws_append hu (spacesList_ws ind))]
      exact rtV h g2 ind _ hh (by omega) (hnd_nl _)
    rw [pi_succ, hv]
    have hsk : skipWs ('\n' :: (w ++ (']' :: rest))) = ']' :: rest := by
      rw [skipWs_nl, skipWs_append_of_ws _ _ hw, skipWs_cons_of_not_ws _ _ (by decide)]
    simp [hsk]
  | cons h2 t2 =>
    have hrep3 : representable h2 = true ∧ representableArr t2 = true := by
      simpa [representableArr, Bool.and_eq_true] using ht
    have hJ : joinComma (stringifyList ind (JsonArr.cons h (.cons h2 t2))) =
        (spacesList ind ++ stringifyV ind h) ++
          ',' :: '\n' :: joinComma (stringifyList ind (JsonArr.cons h2 t2)) := rfl
    have hv : parseVal (g2 + 1) (u ++ (joinComma (stringifyList ind (JsonArr.cons h (.cons h2 t2))) ++
        '\n' :: (w ++ (']' :: rest)))) =
        some (h, ',' :: ('\n' :: (joinComma (stringifyList ind (JsonArr.cons h2 t2)) ++
          '\n' :: (w ++ (']' :: rest))))) := by
      rw [hJ, show (u ++ (((spacesList ind ++ stringifyV ind h) ++
          ',' :: '\n' :: joinComma (stringifyList ind (JsonArr.cons h2 t2))) ++
          '\n' :: (w ++ (']' :: rest)))) =
        ((u ++ spacesList ind) ++ (stringifyV ind h ++
          (',' :: ('\n' :: (joinComma (stringifyList ind (JsonArr.cons h2 t2)) ++
            '\n' :: (w ++ (']' :: rest))))))) by simp]
      rw [parseVal_ws _ _ _ (ws_append hu (spacesList_ws ind))]
      exact rtV h g2 ind _ hh (by omega) (hnd_comma _)
    rw [pi_succ, hv]
    have hsk : skipWs (',' :: ('\n' :: (joinComma (stringifyList ind (JsonArr.cons h2 t2)) ++
        '\n' :: (w ++ (']' :: rest))))) =
        ',' :: ('\n' :: (joinComma (stringifyList ind (JsonArr.cons h2 t2)) ++
          '\n' :: (w ++ (']' :: rest)))) :=
      skipWs_cons_of_not_ws _ _ (by decide)
    have hrec := rtItems h2 t2 (g2 + 1) ind ['\n'] w rest hrep3.1 hrep3.2
      (by simp [jfuelArr] at hfe ⊢; omega)
      (by intro c hc; simp at hc; subst hc; decide) hw
    have hrec2 : parseItems (g2 + 1) ('\n' :: (joinComma (stringifyList ind (JsonArr.cons h2 t2)) ++
        '\n' :: (w ++ (']' :: rest)))) = some (.cons h2 t2, rest) := by
      simpa using hrec
    simp [hsk, hrec2]
termination_by 1 + sizeOf h + sizeOf t

theorem rtFields (k : String) (v : Json) (t : JsonObj) : ∀ (f ind : Nat) (u w rest : List Char),
    representable v = true → representableObj t = true → jfuelObj (.cons k v t) ≤ f →
    (∀ c ∈ u, isWs c = true) → (∀ c ∈ w, isWs c = true) →
    parseMembers f (u ++ (joinComma (stringifyFields ind (.cons k v t)) ++
      '\n' :: (w ++ (Char.ofNat 125 :: rest)))) = some (.cons k v t, rest) := by
  intro f ind u w rest hh ht hfe hu hw
  obtain ⟨g, rfl⟩ : ∃ g, f = g + 1 := ⟨f - 1, by simp [jfuelObj] at hfe; omega⟩
  have hjv : jfuel v ≤ g := by simp [jfuelObj] at hfe; omega
  obtain ⟨g2, rfl⟩ : ∃ g2, g = g2 + 1 := ⟨g - 1, by have := jfuel_pos v; omega⟩
  cases t with
  | nil =>
    have hskA : skipWs (u ++ (joinComma (stringifyFields ind (JsonObj.cons k v .nil)) ++
        '\n' :: (w ++ (Char.ofNat 125 :: rest)))) =
        '"' :: (quoteChars k.data ++
          (':' :: (' ' :: (stringifyV ind v ++ '\n' :: (w ++ (Char.ofNat 125 :: rest)))))) := by
      rw [skipWs_append_of_ws _ _ hu]
      rw [show (joinComma (stringifyFields ind (JsonObj.cons k v .nil)) ++
          '\n' :: (w ++ (Char.ofNat 125 :: rest))) =
        (spacesList ind ++ ('"' :: (quoteChars k.data ++
          (':' :: (' ' :: (stringifyV ind v ++ '\n' :: (w ++ (Char.ofNat 125 :: rest)))))))) by
        show ((spacesList ind ++ ('"' :: quoteChars k.data ++ ':' :: ' ' :: stringifyV ind v)) ++
          '\n' :: (w ++ (Char.ofNat 125 :: rest))) = _
        simp]
      rw [skipWs_append_of_ws _ _ (spacesList_ws ind), skipWs_cons_of_not_ws _ _ (by decide)]
    have hv : parseVal (g2 + 1) (' ' :: (stringifyV ind v ++
        '\n' :: (w ++ (Char.ofNat 125 :: rest)))) =
        some (v, '\n' :: (w ++ (Char.ofNat 125 :: rest))) := by
      rw [show (' ' :: (stringifyV ind v ++ '\n' :: (w ++ (Char.ofNat 125 :: rest)))) =
        ([' '] ++ (stringifyV ind v ++ '\n' :: (w ++ (Char.ofNat 125 :: rest)))) from rfl]
      rw [parseVal_ws _ _ _ (by intro c hc; simp at hc; subst hc; decide)]
      exact rtV v g2 ind _ hh (by omega) (hnd_nl _)
    have hsk3 : skipWs ('\n' :: (w ++ (Char.ofNat 125 :: rest))) = Char.ofNat 125 :: rest := by
      rw [skipWs_nl, skipWs_append_of_ws _ _ hw, skipWs_cons_of_not_ws _ _ (by decide)]
    rw [pm_succ, hskA]
    simp [parseStringBody_quote, skipWs_colon, hv, hsk3]
  | cons k2 v2 t2 =>
    have hrep3 : representable v2 = true ∧ representableObj t2 = true := by
      simp only [representableObj, Bool.and_eq_true] at ht
      exact ⟨ht.1.1, ht.2⟩
    have hskA : skipWs (u ++ (joinComma (stringifyFields ind (JsonObj.cons k v (.cons k2 v2 t2))) ++
        '\n' :: (w ++ (Char.ofNat 125 :: rest)))) =
        '"' :: (quoteChars k.data ++
          (':' :: (' ' :: (stringifyV ind v ++
            ',' :: ('\n' :: (joinComma (stringifyFields ind (JsonObj.cons k2 v2 t2)) ++
              '\n' :: (w ++ (Char.ofNat 125 :: rest)))))))) := by
      rw [skipWs_append_of_ws _ _ hu]
      rw [show (joinComma (stringifyFields ind (JsonObj.cons k v (.cons k2 v2 t2))) ++
          '\n' :: (w ++ (Char.ofNat 125 :: rest))) =
        (spacesList ind ++ ('"' :: (quoteChars k.data ++
          (':' :: (' ' :: (stringifyV ind v ++
            ',' :: ('\n' :: (joinComma (stringifyFields ind (JsonObj.cons k2 v2 t2)) ++
              '\n' :: (w ++ (Char.ofNat 125 :: rest)))))))))) by
        show (((spacesList ind ++ ('"' :: quoteChars k.data ++ ':' :: ' ' :: stringifyV ind v)) ++
          ',' :: '\n' :: joinComma (stringifyFields ind (JsonObj.cons k2 v2 t2))) ++
          '\n' :: (w ++ (Char.ofNat 125 :: rest))) = _
        simp]
      rw [skipWs_append_of_ws _ _ (spacesList_ws ind), skipWs_cons_of_not_ws _ _ (by decide)]
    have hv : parseVal (g2 + 1) (' ' :: (stringifyV ind v ++
        ',' :: ('\n' :: (joinComma (stringifyFields ind (JsonObj.cons k2 v2 t2)) ++
          '\n' :: (w ++ (Char.ofNat 125 :: rest)))))) =
        some (v, ',' :: ('\n' :: (joinComma (stringifyFields ind (JsonObj.cons k2 v2 t2)) ++
          '\n' :: (w ++ (Char.ofNat 125 :: rest))))) := by
      rw [show (' ' :: (stringifyV ind v ++
          ',' :: ('\n' :: (joinComma (stringifyFields ind (JsonObj.cons k2 v2 t2)) ++
            '\n' :: (w ++ (Char.ofNat 125 :: rest)))))) =
        ([' '] ++ (stringifyV ind v ++
          (',' :: ('\n' :: (joinComma (stringifyFields ind (JsonObj.cons k2 v2 t2)) ++
            '\n' :: (w ++ (Char.ofNat 125 :: rest))))))) from rfl]
      rw [parseVal_ws _ _ _ (by intro c hc; simp at hc; subst hc; decide)]
      exact rtV v g2 ind _ hh (by omega) (hnd_comma _)
    have hrec := rtFields k2 v2 t2 (g2 + 1) ind ['\n'] w rest hrep3.1 hrep3.2
      (by simp [jfuelObj] at hfe ⊢; omega)
      (by intro c hc; simp at hc; subst hc; decide) hw
    have hrec2 : parseMembers (g2 + 1) ('\n' :: (joinComma (stringifyFields ind (JsonObj.cons k2 v2 t2)) ++
        '\n' :: (w ++ (Char.ofNat 125 :: rest)))) = some (.cons k2 v2 t2, rest) := by
      simpa using hrec
    rw [pm_succ, hskA]
    simp [parseStringBody_quote, skipWs_colon, skipWs_comma, hv, hrec2]
termination_by 1 + sizeOf v + sizeOf t

end

end Cursor
namespace Cursor

mutual

theorem jfuel_le_len (v : Json) : ∀ ind : Nat, jfuel v ≤ (stringifyV ind v).length := by
  cases v with
  | null => intro ind; simp [jfuel, stringifyV]
  | undef => intro ind; simp [jfuel, stringifyV]
  | bool b => intro ind; cases b <;> simp [jfuel, stringifyV]
  | num n =>
    intro ind
    obtain ⟨c, cs, hcs, _⟩ := renderInt_shape n
    simp [jfuel, stringifyV, hcs]
  | str s => intro ind; simp [jfuel, stringifyV, quote]
  | arr xs =>
    cases xs with
    | nil => intro ind; simp [jfuel, jfuelArr, stringifyV]
    | cons h t =>
      intro ind
      have hi := jfuelArr_le_len h t (ind + 2) (by omega)
      simp only [jfuel, stringifyV, List.length_cons, List.length_append]
      omega
  | obj fields =>
    cases fields with
    | nil => intro ind; simp [jfuel, jfuelObj, stringifyV]
    | cons k v t =>
      intro ind
      have hi := jfuelObj_le_len k v t (ind + 2) (by omega)
      simp only [jfuel, stringifyV, List.length_cons, List.length_append]
      omega
termination_by sizeOf v

theorem jfuelArr_le_len (h : Json) (t : JsonArr) : ∀ ind : Nat, 1 ≤ ind →
    jfuelArr (.cons h t) ≤ (joinComma (stringifyList ind (.cons h t))).length := by
  cases t with
  | nil =>
    intro ind hind
    have hv := jfuel_le_len h ind
    show jfuelArr (.cons h .nil) ≤ (spacesList ind ++ stringifyV ind h).length
    simp only [jfuelArr, List.length_append, spacesList, List.length_replicate]
    omega
  | cons h2 t2 =>
    intro ind hind
    have hv := jfuel_le_len h ind
    have hi := jfuelArr_le_len h2 t2 ind hind
    show jfuelArr (.cons h (.cons h2 t2)) ≤
      ((spacesList ind ++ stringifyV ind h) ++
        ',' :: '\n' :: joinComma (stringifyList ind (.cons h2 t2))).length
    simp only [jfuelArr, List.length_append, List.length_cons, spacesList,
      List.length_replicate] at hi ⊢
    omega
termination_by 1 + sizeOf h + sizeOf t

theorem jfuelObj_le_len (k : String) (v : Json) (t : JsonObj) : ∀ ind : Nat, 1 ≤ ind →
    jfuelObj (.cons k v t) ≤ (joinComma (stringifyFields ind (.cons k v t))).length := by
  cases t with
  | nil =>
    intro ind hind
    have hv := jfuel_le_len v ind
    show jfuelObj (.cons k v .nil) ≤
      (spacesList ind ++ (quote k ++ ':' :: ' ' :: stringifyV ind v)).length
    simp only [jfuelObj, List.length_append, List.length_cons, spacesList,
      List.length_replicate]
    omega
  | cons k2 v2 t2 =>
    intro ind hind
    have hv := jfuel_le_len v ind
    have hi := jfuelObj_le_len k2 v2 t2 ind hind
    show jfuelObj (.cons k v (.cons k2 v2 t2)) ≤
      ((spacesList ind ++ (quote k ++ ':' :: ' ' :: stringifyV ind v)) ++
        ',' :: '\n' :: joinComma (stringifyFields ind (.cons k2 v2 t2))).length
    simp only [jfuelObj, List.length_append, List.length_cons, spacesList,
      List.length_replicate] at hi ⊢
    omega
termination_by 1 + sizeOf v + sizeOf t

end

mutual

theorem dropUndef_eq (v : Json) : representable v = true → dropUndef v = v := by
  cases v with
  | null => intro _; rfl
  | undef => intro h; simp [representable] at h
  | bool b => intro _; rfl
  | num n => intro _; rfl
  | str s => intro _; rfl
  | arr xs =>
    intro h
    have h2 : representableArr xs = true := by simpa [representable] using h
    simp only [dropUndef]
    rw [dropUndefArr_eq xs h2]
  | obj fields =>
    intro h
    have h2 : representableObj fields = true := by simpa [representable] using h
    simp only [dropUndef]
    rw [dropUndefObj_eq fields h2]
termination_by sizeOf v

theorem dropUndefArr_eq (t : JsonArr) : representableArr t = true → dropUndefArr t = t := by
  cases t with
  | nil => intro _; rfl
  | cons hd tl =>
    intro h
    have h2 : representable hd = true ∧ representableArr tl = true := by
      simpa [representableArr, Bool.and_eq_true] using h
    cases hd with
    | undef => simp [representable] at h2
    | null =>
      simp only [dropUndefArr, dropUndef]
      rw [dropUndefArr_eq tl h2.2]
    | bool b =>
      simp only [dropUndefArr, dropUndef]
      rw [dropUndefArr_eq tl h2.2]
    | num n =>
      simp only [dropUndefArr, dropUndef]
      rw [dropUndefArr_eq tl h2.2]
    | str s =>
      simp only [dropUndefArr, dropUndef]
      rw [dropUndefArr_eq tl h2.2]
    | arr xs =>
      simp only [dropUndefArr]
      rw [dropUndef_eq _ h2.1, dropUndefArr_eq tl h2.2]
    | obj fs =>
      simp only [dropUndefArr]
      rw [dropUndef_eq _ h2.1, dropUndefArr_eq tl h2.2]
termination_by sizeOf t

theorem dropUndefObj_eq (t : JsonObj) : representableObj t = true → dropUndefObj t = t := by
  cases t with
  | nil => intro _; rfl
  | cons k v tl =>
    intro h
    have h2 : representable v = true ∧ representableObj tl = true := by
      have h1 := h
      simp only [representableObj, Bool.and_eq_true] at h1
      exact ⟨h1.1.1, h1.2⟩
    cases v with
    | undef => simp [representable] at h2
    | null =>
      simp only [dropUndefObj, dropUndef]
      rw [dropUndefObj_eq tl h2.2]
    | bool b =>
      simp only [dropUndefObj, dropUndef]
      rw [dropUndefObj_eq tl h2.2]
    | num n =>
      simp only [dropUndefObj, dropUndef]
      rw [dropUndefObj_eq tl h2.2]
    | str s =>
      simp only [dropUndefObj, dropUndef]
      rw [dropUndefObj_eq tl h2.2]
    | arr xs =>
      simp only [dropUndefObj]
      rw [dropUndef_eq _ h2.1, dropUndefObj_eq tl h2.2]
    | obj fs =>
      simp only [dropUndefObj]
      rw [dropUndef_eq _ h2.1, dropUndefObj_eq tl h2.2]
termination_by sizeOf t

end

/-- Central codec theorem: `JSON.parse` inverts `JSON.stringify(·, null, 2)`
on every JSON-representable value. -/
theorem jparse_jstringify (v : Json) (h : representable v = true) :
    jparse (jstringify v) = some v := by
  unfold jstringify
  rw [dropUndef_eq v h]
  unfold jparse
  have hlen : (String.mk (stringifyV 0 v)).length = (stringifyV 0 v).length := rfl
  have hdata : (String.mk (stringifyV 0 v)).data = stringifyV 0 v := rfl
  rw [hlen, hdata]
  have hfe : jfuel v ≤ (stringifyV 0 v).length + 1 :=
    Nat.le_succ_of_le (jfuel_le_len v 0)
  have := rtV v ((stringifyV 0 v).length) 0 [] h hfe rfl
  rw [List.append_nil] at this
  rw [this]
  simp [skipWs]

end Cursor
namespace Cursor

/-! Pipeline evaluation lemmas. -/

theorem lastWrite_foldl (key : String) : ∀ (l : List (String × Json)) (a : Option Json),
    (l.foldl (fun acc kv => if kv.1 = key then some kv.2 else acc) a) =
      match lastWrite l key with
      | some v => some v
      | none => a := by
  intro l
  induction l with
  | nil => intro a; simp [lastWrite]
  | cons kv l ih =>
    intro a
    show (l.foldl _ (if kv.1 = key then some kv.2 else a)) = _
    rw [ih]
    have h2 : lastWrite (kv :: l) key =
        match lastWrite l key with
        | some v => some v
        | none => (if kv.1 = key then some kv.2 else none) := by
      show (l.foldl _ (if kv.1 = key then some kv.2 else none)) = _
      rw [ih]
    rw [h2]
    cases lastWrite l key with
    | none => by_cases hk : kv.1 = key <;> simp [hk]
    | some v => simp

theorem foldl_setKey_lookup (key : String) : ∀ (l : List (String × Json)) (b : JsonObj),
    (l.foldl (fun acc kv => acc.setKey kv.1 kv.2) b).lookup key =
      match lastWrite l key with
      | some v => some v
      | none => b.lookup key := by
  intro l
  induction l with
  | nil => intro b; simp [lastWrite]
  | cons kv l ih =>
    intro b
    show (l.foldl _ (b.setKey kv.1 kv.2)).lookup key = _
    rw [ih]
    have h2 : lastWrite (kv :: l) key =
        match lastWrite l key with
        | some v => some v
        | none => (if kv.1 = key then some kv.2 else none) := by
      show (l.foldl _ (if kv.1 = key then some kv.2 else none)) = _
      rw [lastWrite_foldl]
    rw [h2, JsonObj.setKey_lookup]
    cases lastWrite l key with
    | none =>
      by_cases hk : kv.1 = key <;> simp [hk]
    | some v => simp

/-- Lookup through a spread merge: the last write in the spread wins,
otherwise the base binding survives. -/
theorem mergeSpread_lookup (base : JsonObj) (x : Json) (key : String) :
    (mergeSpread base x).lookup key =
      match lastWrite x.spreadFields.entries key with
      | some v => some v
      | none => base.lookup key :=
  foldl_setKey_lookup key _ base

theorem executeStep_def (env : Env) (cfg : Cfg) (s : Step) (inp : JsonObj) :
    executeStep env cfg s inp =
      ((getAgent env s.agent).execute inp (buildOptions cfg s)).bind
        (fun r => (r.jsGet "success").bind (fun _ => .ok r)) := rfl

theorem executeStep_exec_error {env : Env} {cfg : Cfg} {s : Step} {inp : JsonObj} {e : String}
    (h : (getAgent env s.agent).execute inp (buildOptions cfg s) = .error e) :
    executeStep env cfg s inp = .error e := by
  rw [executeStep_def, h]
  rfl

theorem executeStep_exec_ok {env : Env} {cfg : Cfg} {s : Step} {inp : JsonObj} {r : Json} {u : Option Json}
    (h : (getAgent env s.agent).execute inp (buildOptions cfg s) = .ok r)
    (hs : r.jsGet "success" = .ok u) :
    executeStep env cfg s inp = .ok r := by
  rw [executeStep_def, h]
  simp [Except.bind, hs]

theorem executeStep_ok_inv {env : Env} {cfg : Cfg} {s : Step} {inp : JsonObj} {r : Json}
    (h : executeStep env cfg s inp = .ok r) :
    (getAgent env s.agent).execute inp (buildOptions cfg s) = .ok r := by
  rw [executeStep_def] at h
  cases hE : (getAgent env s.agent).execute inp (buildOptions cfg s) with
  | error e => rw [hE] at h; simp [Except.bind] at h
  | ok r2 =>
    rw [hE] at h
    simp only [Except.bind] at h
    cases hS : r2.jsGet "success" with
    | error e => rw [hS] at h; simp [Except.bind] at h
    | ok u =>
      rw [hS] at h
      simp only [Except.bind] at h
      exact h

theorem runStep_exec_error {env : Env} {cfg : Cfg} {i : Nat} {s : Step} {inp : JsonObj}
    {st : PState} {e : String}
    (h : executeStep env cfg s inp = .error e) :
    runStep env cfg i s inp st = .halt (.error e i) { st with currentStep := i, status := "error" }
      [.agentExec i s.agent inp (buildOptions cfg s)] := by
  simp [runStep, h]

theorem runStep_cancel {env : Env} {cfg : Cfg} {i : Nat} {s : Step} {inp : JsonObj}
    {st : PState} {r : Json} {c : Option Json}
    (h : executeStep env cfg s inp = .ok r)
    (hc : r.jsGet "cancelled" = .ok c) (ht : Json.truthyOpt c = true) :
    runStep env cfg i s inp st = .halt .cancelled { st with currentStep := i, status := "cancelled" }
      [.agentExec i s.agent inp (buildOptions cfg s)] := by
  simp [runStep, h, hc, ht]

theorem runStep_next_noconfirm {env : Env} {cfg : Cfg} {i : Nat} {s : Step} {inp : JsonObj}
    {st : PState} {r : Json} {c : Option Json}
    (h : executeStep env cfg s inp = .ok r)
    (hc : r.jsGet "cancelled" = .ok c) (ht : Json.truthyOpt c = false)
    (hm : (s.confirm && !cfg.autoMode) = false) :
    runStep env cfg i s inp st = .next (mergeSpread inp ((r.get? "output").getD .undef))
      { st with currentStep := i, results := st.results.setKey (stepKey s) r }
      [.agentExec i s.agent inp (buildOptions cfg s)] := by
  simp [runStep, h, hc, ht, hm]

theorem runStep_confirm_error {env : Env} {cfg : Cfg} {i : Nat} {s : Step} {inp : JsonObj}
    {st : PState} {r : Json} {c : Option Json} {e : String}
    (h : executeStep env cfg s inp = .ok r)
    (hc : r.jsGet "cancelled" = .ok c) (ht : Json.truthyOpt c = false)
    (hm : (s.confirm && !cfg.autoMode) = true)
    (hg : handleConfirmPoint env.prompter s r = .error e) :
    runStep env cfg i s inp st = .halt (.error e i)
      { st with currentStep := i, status := "error", results := st.results.setKey (stepKey s) r }
      [.agentExec i s.agent inp (buildOptions cfg s)] := by
  simp [runStep, h, hc, ht, hm, hg]

theorem runStep_confirm_continue {env : Env} {cfg : Cfg} {i : Nat} {s : Step} {inp : JsonObj}
    {st : PState} {r : Json} {c : Option Json} {gev : Event}
    (h : executeStep env cfg s inp = .ok r)
    (hc : r.jsGet "cancelled" = .ok c) (ht : Json.truthyOpt c = false)
    (hm : (s.confirm && !cfg.autoMode) = true)
    (hg : handleConfirmPoint env.prompter s r = .ok (true, gev)) :
    runStep env cfg i s inp st = .next (mergeSpread inp ((r.get? "output").getD .undef))
      { st with currentStep := i, results := st.results.setKey (stepKey s) r }
      [.agentExec i s.agent inp (buildOptions cfg s), gev] := by
  simp [runStep, h, hc, ht, hm, hg]

theorem runStep_confirm_decline {env : Env} {cfg : Cfg} {i : Nat} {s : Step} {inp : JsonObj}
    {st : PState} {r : Json} {c : Option Json} {gev : Event}
    (h : executeStep env cfg s inp = .ok r)
    (hc : r.jsGet "cancelled" = .ok c) (ht : Json.truthyOpt c = false)
    (hm : (s.confirm && !cfg.autoMode) = true)
    (hg : handleConfirmPoint env.prompter s r = .ok (false, gev)) :
    runStep env cfg i s inp st = .halt (.paused i)
      { st with currentStep := i, status := "paused", results := st.results.setKey (stepKey s) r }
      [.agentExec i s.agent inp (buildOptions cfg s), gev] := by
  simp [runStep, h, hc, ht, hm, hg]

/-- Whenever one loop iteration continues, some agent result was obtained,
recorded under the step's key, and its output accreted into the input. -/
theorem runStep_next_shape {env : Env} {cfg : Cfg} {i : Nat} {s : Step} {inp : JsonObj}
    {st : PState} {inp' : JsonObj} {st' : PState} {evs : List Event}
    (h : runStep env cfg i s inp st = .next inp' st' evs) :
    ∃ r, (getAgent env s.agent).execute inp (buildOptions cfg s) = .ok r ∧
      inp' = mergeSpread inp ((r.get? "output").getD .undef) ∧
      st' = { st with currentStep := i, results := st.results.setKey (stepKey s) r } := by
  unfold runStep at h
  split at h
  · simp at h
  · rename_i r hE
    split at h
    · simp at h
    · rename_i c hC
      split at h
      · simp at h
      · split at h
        · split at h
          · simp at h
          · rename_i pr hG
            split at h
            · injection h with h1 h2 h3
              exact ⟨r, executeStep_ok_inv hE, h1.symm, h2.symm⟩
            · simp at h
        · injection h with h1 h2 h3
          exact ⟨r, executeStep_ok_inv hE, h1.symm, h2.symm⟩

end Cursor
namespace Cursor

theorem runUpTo_nil (env : Env) (cfg : Cfg) (i : Nat) (inp : JsonObj) (st : PState)
    (acc : List Event) : runUpTo env cfg [] i inp st acc = .next inp st acc := rfl

theorem runUpTo_cons (env : Env) (cfg : Cfg) (s : Step) (l : List Step) (i : Nat)
    (inp : JsonObj) (st : PState) (acc : List Event) :
    runUpTo env cfg (s :: l) i inp st acc =
      (match runStep env cfg i s inp st with
       | .halt o st' evs => .halt o st' (acc ++ evs)
       | .next inp' st' evs => runUpTo env cfg l (i + 1) inp' st' (acc ++ evs)) := rfl

theorem runUpTo_acc (env : Env) (cfg : Cfg) : ∀ (l : List Step) (i : Nat) (inp : JsonObj)
    (st : PState) (acc : List Event),
    runUpTo env cfg l i inp st acc =
      (match runUpTo env cfg l i inp st [] with
       | .halt o st' evs => .halt o st' (acc ++ evs)
       | .next inp' st' evs => .next inp' st' (acc ++ evs)) := by
  intro l
  induction l with
  | nil => intro i inp st acc; simp [runUpTo_nil]
  | cons s l ih =>
    intro i inp st acc
    rw [runUpTo_cons, runUpTo_cons]
    cases hS : runStep env cfg i s inp st with
    | halt o st' evs => simp
    | next inp' st' evs =>
      simp only
      rw [ih (i + 1) inp' st' (acc ++ evs), ih (i + 1) inp' st' ([] ++ evs)]
      cases runUpTo env cfg l (i + 1) inp' st' [] with
      | halt o st2 evs2 => simp
      | next inp2 st2 evs2 => simp

theorem runUpTo_append (env : Env) (cfg : Cfg) : ∀ (a b : List Step) (i : Nat) (inp : JsonObj)
    (st : PState),
    runUpTo env cfg (a ++ b) i inp st [] =
      (match runUpTo env cfg a i inp st [] with
       | .halt o st' evs => .halt o st' evs
       | .next inp' st' evs =>
         (match runUpTo env cfg b (i + a.length) inp' st' [] with
          | .halt o st2 evs2 => .halt o st2 (evs ++ evs2)
          | .next inp2 st2 evs2 => .next inp2 st2 (evs ++ evs2))) := by
  intro a
  induction a with
  | nil =>
    intro b i inp st
    rw [List.nil_append, runUpTo_nil]
    simp only [List.length_nil, Nat.add_zero]
    cases hx : runUpTo env cfg b i inp st [] with
    | halt o st2 evs2 => simp [hx]
    | next inp2 st2 evs2 => simp [hx]
  | cons s a ih =>
    intro b i inp st
    rw [List.cons_append, runUpTo_cons, runUpTo_cons]
    cases hS : runStep env cfg i s inp st with
    | halt o st' evs => simp
    | next inp' st' evs =>
      simp only
      rw [runUpTo_acc env cfg (a ++ b) (i + 1) inp' st' ([] ++ evs), ih b (i + 1) inp' st',
        runUpTo_acc env cfg a (i + 1) inp' st' ([] ++ evs)]
      have hlen : i + 1 + a.length = i + (a.length + 1) := by omega
      rw [hlen]
      cases hx : runUpTo env cfg a (i + 1) inp' st' [] with
      | halt o st2 evs2 => simp [hx]
      | next inp2 st2 evs2 =>
        cases hy : runUpTo env cfg b (i + (a.length + 1)) inp2 st2 [] with
        | halt o st3 evs3 => simp [hx, hy]
        | next inp3 st3 evs3 => simp [hx, hy]

/-- Splitting a run at a reached position `k`. -/
theorem run_split (env : Env) (cfg : Cfg) (wf : Workflow) (input : Json) (st0 : PState)
    (k : Nat) (inp : JsonObj) (st : PState) (evs : List Event)
    (hk : k ≤ wf.steps.length)
    (hreach : runUpTo env cfg (wf.steps.take k) 0 (Json.spreadFields input)
      { st0 with status := "running" } [] = .next inp st evs) :
    run env cfg wf input st0 =
      (match runUpTo env cfg (wf.steps.drop k) k inp st [] with
       | .halt o st' evs2 => (o, st', evs ++ evs2)
       | .next _ st' evs2 =>
         (.success st'.results, { st' with status := "completed" }, evs ++ evs2)) := by
  unfold run runSteps
  conv_lhs => rw [← List.take_append_drop k wf.steps]
  rw [runUpTo_append, hreach]
  have hlen : (wf.steps.take k).length = k := by
    rw [List.length_take]
    omega
  rw [hlen]
  simp only [Nat.zero_add]
  cases runUpTo env cfg (wf.steps.drop k) k inp st [] with
  | halt o st2 evs2 => simp
  | next inp2 st2 evs2 => simp

/-- Keys recorded by a continuing segment: exactly the step keys, in order. -/
theorem runUpTo_keys (env : Env) (cfg : Cfg) : ∀ (l : List Step) (i : Nat) (inp inp' : JsonObj)
    (st st' : PState) (evs : List Event),
    (l.map stepKey).Nodup → (∀ s ∈ l, stepKey s ∉ st.results.keys) →
    runUpTo env cfg l i inp st [] = .next inp' st' evs →
    st'.results.keys = st.results.keys ++ l.map stepKey ∧ st'.status = st.status := by
  intro l
  induction l with
  | nil =>
    intro i inp inp' st st' evs _ _ hrun
    rw [runUpTo_nil] at hrun
    injection hrun with h1 h2 h3
    subst h2
    simp
  | cons s l ih =>
    intro i inp inp' st st' evs hnd hdisj hrun
    rw [runUpTo_cons] at hrun
    cases hS : runStep env cfg i s inp st with
    | halt o st2 evs2 => rw [hS] at hrun; simp at hrun
    | next inp2 st2 evs2 =>
      rw [hS] at hrun
      simp only at hrun
      rw [runUpTo_acc] at hrun
      cases hR : runUpTo env cfg l (i + 1) inp2 st2 [] with
      | halt o st3 evs3 => rw [hR] at hrun; simp at hrun
      | next inp3 st3 evs3 =>
        rw [hR] at hrun
        simp only at hrun
        injection hrun with h1 h2 h3
        subst h1 h2
        obtain ⟨r, _, _, hshape⟩ := runStep_next_shape hS
        have hkeys2 : st2.results.keys = st.results.keys ++ [stepKey s] := by
          rw [hshape]
          exact JsonObj.setKey_keys_of_not_mem _ _ _ (hdisj s (List.mem_cons_self ..))
        have hst2 : st2.status = st.status := by rw [hshape]
        have hnd2 : (l.map stepKey).Nodup := (List.nodup_cons.1 (by simpa using hnd)).2
        have hhead : stepKey s ∉ l.map stepKey := (List.nodup_cons.1 (by simpa using hnd)).1
        have hdisj2 : ∀ s' ∈ l, stepKey s' ∉ st2.results.keys := by
          intro s' hs'
          rw [hkeys2]
          intro hmem
          rcases List.mem_append.1 hmem with hmem | hmem
          · exact hdisj s' (List.mem_cons_of_mem _ hs') hmem
          · rw [List.mem_singleton] at hmem
            exact hhead (hmem ▸ List.mem_map_of_mem stepKey hs')
        obtain ⟨hk3, hs3⟩ := ih (i + 1) inp2 inp3 st2 st3 evs3 hnd2 hdisj2 hR
        constructor
        · rw [hk3, hkeys2]
          simp
        · rw [hs3, hst2]

/-- A continuing segment whose step outputs never write `key` leaves the
shared input's binding for `key` unchanged. -/
theorem runUpTo_stable (env : Env) (cfg : Cfg) (key : String) : ∀ (l : List Step) (i : Nat)
    (inp inp' : JsonObj) (st st' : PState) (evs : List Event),
    (∀ s ∈ l, ∀ (inp2 : JsonObj) (r : Json),
      (getAgent env s.agent).execute inp2 (buildOptions cfg s) = .ok r →
      lastWrite ((Json.spreadFields ((r.get? "output").getD .undef)).entries) key = none) →
    runUpTo env cfg l i inp st [] = .next inp' st' evs →
    inp'.lookup key = inp.lookup key := by
  intro l
  induction l with
  | nil =>
    intro i inp inp' st st' evs _ hrun
    rw [runUpTo_nil] at hrun
    injection hrun with h1 h2 h3
    subst h1
    rfl
  | cons s l ih =>
    intro i inp inp' st st' evs hout hrun
    rw [runUpTo_cons] at hrun
    cases hS : runStep env cfg i s inp st with
    | halt o st2 evs2 => rw [hS] at hrun; simp at hrun
    | next inp2 st2 evs2 =>
      rw [hS] at hrun
      simp only at hrun
      rw [runUpTo_acc] at hrun
      cases hR : runUpTo env cfg l (i + 1) inp2 st2 [] with
      | halt o st3 evs3 => rw [hR] at hrun; simp at hrun
      | next inp3 st3 evs3 =>
        rw [hR] at hrun
        simp only at hrun
        injection hrun with h1 h2 h3
        subst h1
        obtain ⟨r, hexec, hmerge, _⟩ := runStep_next_shape hS
        have hstep : inp2.lookup key = inp.lookup key := by
          rw [hmerge, mergeSpread_lookup,
            hout s (List.mem_cons_self ..) inp r hexec]
        rw [← hstep]
        exact ih (i + 1) inp2 inp3 st2 st3 evs3
          (fun s' hs' => hout s' (List.mem_cons_of_mem _ hs')) hR

theorem runStep_events_auto (env : Env) (cfg : Cfg) (i : Nat) (s : Step) (inp : JsonObj)
    (st : PState) (hauto : cfg.autoMode = true) :
    ∀ e ∈ (runStep env cfg i s inp st).events, e.isGate = false := by
  intro e he
  unfold runStep at he
  have hm : (s.confirm && !cfg.autoMode) = false := by rw [hauto]; simp
  rw [hm] at he
  simp only [Bool.false_eq_true, if_false] at he
  split at he
  · simp [StepRes.events] at he; subst he; rfl
  · split at he
    · simp [StepRes.events] at he; subst he; rfl
    · split at he
      · simp [StepRes.events] at he; subst he; rfl
      · simp [StepRes.events] at he; subst he; rfl

theorem runUpTo_events_auto (env : Env) (cfg : Cfg) (hauto : cfg.autoMode = true) :
    ∀ (l : List Step) (i : Nat) (inp : JsonObj) (st : PState) (acc : List Event),
    (∀ e ∈ acc, e.isGate = false) →
    ∀ e ∈ (runUpTo env cfg l i inp st acc).events, e.isGate = false := by
  intro l
  induction l with
  | nil =>
    intro i inp st acc hacc e he
    rw [runUpTo_nil] at he
    exact hacc e (by simpa [StepRes.events] using he)
  | cons s l ih =>
    intro i inp st acc hacc e he
    rw [runUpTo_cons] at he
    cases hS : runStep env cfg i s inp st with
    | halt o st2 evs2 =>
      rw [hS] at he
      simp only [StepRes.events] at he
      rcases List.mem_append.1 he with h | h
      · exact hacc e h
      · have := runStep_events_auto env cfg i s inp st hauto
        rw [hS] at this
        exact this e (by simpa [StepRes.events] using h)
    | next inp2 st2 evs2 =>
      rw [hS] at he
      refine ih (i + 1) inp2 st2 (acc ++ evs2) ?_ e he
      intro e2 he2
      rcases List.mem_append.1 he2 with h | h
      · exact hacc e2 h
      · have := runStep_events_auto env cfg i s inp st hauto
        rw [hS] at this
        exact this e2 (by simpa [StepRes.events] using h)

theorem run_events (env : Env) (cfg : Cfg) (wf : Workflow) (input : Json) (st0 : PState) :
    (run env cfg wf input st0).2.2 =
      (runUpTo env cfg wf.steps 0 (Json.spreadFields input)
        { st0 with status := "running" } []).events := by
  unfold run runSteps
  cases runUpTo env cfg wf.steps 0 (Json.spreadFields input)
    { st0 with status := "running" } [] with
  | halt o st2 evs2 => simp [StepRes.events]
  | next inp2 st2 evs2 => simp [StepRes.events]

end Cursor
namespace Cursor

theorem get?_some_obj {r : Json} {k : String} {v : Json} (h : Json.get? r k = some v) :
    ∃ m, r = .obj m := by
  cases r with
  | obj m => exact ⟨m, rfl⟩
  | null => simp [Json.get?] at h
  | undef => simp [Json.get?] at h
  | bool b => simp [Json.get?] at h
  | num n => simp [Json.get?] at h
  | str s => simp [Json.get?] at h
  | arr xs => simp [Json.get?] at h

theorem jsGet_obj (m : JsonObj) (k : String) : (Json.obj m).jsGet k = .ok (m.lookup k) := rfl

/-- Every continuing auto-mode segment with all-successful agents runs through. -/
theorem runUpTo_auto_next (env : Env) (cfg : Cfg) (hauto : cfg.autoMode = true) :
    ∀ (l : List Step) (i : Nat) (inp : JsonObj) (st : PState),
    (∀ s ∈ l, ∀ (inp2 opts : JsonObj), ∃ r,
      (getAgent env s.agent).execute inp2 opts = .ok r ∧
      Json.get? r "success" = some (.bool true) ∧ Json.get? r "cancelled" = none) →
    ∃ inp' st' evs, runUpTo env cfg l i inp st [] = .next inp' st' evs := by
  intro l
  induction l with
  | nil => exact fun i inp st _ => ⟨inp, st, [], rfl⟩
  | cons s l ih =>
    intro i inp st hag
    obtain ⟨r, hexec, hsucc, hcanc⟩ := hag s (List.mem_cons_self ..) inp (buildOptions cfg s)
    obtain ⟨m, rfl⟩ := get?_some_obj hsucc
    have hcl : m.lookup "cancelled" = none := by simpa [Json.get?] using hcanc
    have hM : (s.confirm && !cfg.autoMode) = false := by rw [hauto]; simp
    have hS := @runStep_next_noconfirm env cfg i s inp st _ _
      (executeStep_exec_ok hexec (jsGet_obj m "success"))
      (jsGet_obj m "cancelled") (by rw [hcl]; rfl) hM
    obtain ⟨inp', st', evs, hR⟩ := ih (i + 1)
      (mergeSpread inp (((Json.obj m).get? "output").getD .undef))
      { st with currentStep := i, results := st.results.setKey (stepKey s) (.obj m) }
      (fun s' hs' => hag s' (List.mem_cons_of_mem _ hs'))
    refine ⟨inp', st', [.agentExec i s.agent inp (buildOptions cfg s)] ++ evs, ?_⟩
    rw [runUpTo_cons, hS]
    simp only
    rw [runUpTo_acc, hR]
    simp

/-- C1: In auto mode, with pairwise-distinct step ids and every agent's
execute returning success: true and no cancelled flag, the run returns
success, the final status is `completed`, and `results` has exactly one
entry per step, keyed by the step ids in order. -/
theorem C1_auto_all_success (env : Env) (cfg : Cfg) (wf : Workflow) (input : Json)
    (hauto : cfg.autoMode = true)
    (hids : (wf.steps.map stepKey).Nodup)
    (hagents : ∀ s ∈ wf.steps, ∀ (inp opts : JsonObj), ∃ r,
      (getAgent env s.agent).execute inp opts = .ok r ∧
      Json.get? r "success" = some (.bool true) ∧ Json.get? r "cancelled" = none) :
    (run env cfg wf input initState).1 =
      .success (run env cfg wf input initState).2.1.results ∧
    (run env cfg wf input initState).2.1.status = "completed" ∧
    (run env cfg wf input initState).2.1.results.keys = wf.steps.map stepKey := by
  obtain ⟨inp', st', evs, hR⟩ := runUpTo_auto_next env cfg hauto wf.steps 0
    (Json.spreadFields input) { initState with status := "running" } hagents
  have hkeys := runUpTo_keys env cfg wf.steps 0 (Json.spreadFields input) inp'
    { initState with status := "running" } st' evs hids
    (by intro s _ hmem; simp [initState, JsonObj.keys] at hmem) hR
  unfold run runSteps
  rw [hR]
  refine ⟨rfl, rfl, ?_⟩
  have : st'.results.keys = [] ++ wf.steps.map stepKey := by
    simpa [initState, JsonObj.keys] using hkeys.1
  simpa using this

/-- C1 witness. -/
theorem C1_auto_all_success_witness :
    cfgAuto.autoMode = true ∧
    (run envX cfgAuto wfTwo (.obj .nil) initState).2.1.status = "completed" ∧
    (run envX cfgAuto wfTwo (.obj .nil) initState).2.1.results.keys =
      ["research_agent", "m"] := by
  have h := C1_auto_all_success envX cfgAuto wfTwo (.obj .nil) rfl (by decide)
    (by
      intro s hs inp opts
      fin_cases hs
      · exact ⟨_, rfl, rfl, rfl⟩
      · exact ⟨_, rfl, rfl, rfl⟩)
  exact ⟨rfl, h.2.1, by rw [h.2.2]; rfl⟩

/-- C2 counterexample: with a gated mock step (whose result has no output
field) the confirmation gate throws after the result was recorded, so the
run returns the error outcome for step 0 while `results` does contain the
entry for step 0 — refuting "records no entry in results for step k" for
throws from any part of executing step k. -/
theorem C2_counterexample :
    (run envNone cfgInter wfGatedMock (.obj .nil) initState).1 =
      .error "TypeError: Cannot read properties of undefined (reading 'trends')" 0 ∧
    (run envNone cfgInter wfGatedMock (.obj .nil) initState).2.1.results.keys =
      ["research_agent"] := by
  exact ⟨rfl, rfl⟩

/-- C2 (amended): when the agent's execute itself throws at a reached step
k, the run returns the error outcome with that message and index, sets
status to error, records nothing new (in particular no entry for step k),
executes no step after k, and — for distinct ids from a fresh state — the
recorded keys are exactly those of steps 0..k-1. -/
theorem C2_error_halts (env : Env) (cfg : Cfg) (wf : Workflow) (input : Json) (st0 : PState)
    (k : Nat) (inp : JsonObj) (st : PState) (evs : List Event) (s : Step) (rest : List Step)
    (e : String)
    (hsplit : wf.steps.drop k = s :: rest)
    (hreach : runUpTo env cfg (wf.steps.take k) 0 (Json.spreadFields input)
      { st0 with status := "running" } [] = .next inp st evs)
    (hthrow : (getAgent env s.agent).execute inp (buildOptions cfg s) = .error e) :
    run env cfg wf input st0 =
      (.error e k, { st with currentStep := k, status := "error" },
        evs ++ [.agentExec k s.agent inp (buildOptions cfg s)]) ∧
    ({ st with currentStep := k, status := "error" } : PState).results = st.results ∧
    (st0.results = .nil → (wf.steps.map stepKey).Nodup →
      (run env cfg wf input st0).2.1.results.keys = (wf.steps.take k).map stepKey) := by
  have hk : k ≤ wf.steps.length := by
    by_contra hcon
    push_neg at hcon
    rw [List.drop_eq_nil_of_le (by omega)] at hsplit
    simp at hsplit
  have hrun := run_split env cfg wf input st0 k inp st evs hk hreach
  rw [hsplit, runUpTo_cons, runStep_exec_error (executeStep_exec_error hthrow)] at hrun
  simp only [List.nil_append] at hrun
  refine ⟨hrun, rfl, ?_⟩
  intro hr0 hnd
  rw [hrun]
  have hnd2 : ((wf.steps.take k).map stepKey).Nodup := by
    rw [List.map_take]
    exact List.Nodup.sublist (List.take_sublist _ _) hnd
  have hkeys := runUpTo_keys env cfg (wf.steps.take k) 0 (Json.spreadFields input) inp
    { st0 with status := "running" } st evs hnd2
    (by intro s' _ hmem; rw [hr0] at hmem; simp [JsonObj.keys] at hmem) hreach
  have : st.results.keys = ({ st0 with status := "running" } : PState).results.keys ++
      (wf.steps.take k).map stepKey := hkeys.1
  rw [hr0] at this
  simpa [JsonObj.keys] using this

/-- C2 witness (for the amended theorem, at a throwing agent). -/
theorem C2_error_halts_witness :
    (getAgent envThrow "research_agent").execute .nil
      (buildOptions cfgAuto (mkStep "research_agent")) = .error "boom" ∧
    (run envThrow cfgAuto wfOne (.obj .nil) initState).1 = .error "boom" 0 ∧
    (run envThrow cfgAuto wfOne (.obj .nil) initState).2.1.results.keys = [] := by
  have h := C2_error_halts envThrow cfgAuto wfOne (.obj .nil) initState 0 .nil
    ⟨0, "running", .nil⟩ [] (mkStep "research_agent") [] "boom" rfl rfl rfl
  refine ⟨rfl, ?_, ?_⟩
  · rw [h.1]
  · have := h.2.2 rfl (by decide)
    rw [this]
    rfl

/-- C3 counterexample: a single-step workflow whose agent reports
cancelled: true ends with the cancelled outcome, but `results` is empty —
refuting "results contains entries for steps 0..k" (for k = 0 there is no
entry at all, because the cancellation check precedes recording). -/
theorem C3_counterexample :
    (run envCancel cfgAuto wfOne (.obj .nil) initState).1 = .cancelled ∧
    (run envCancel cfgAuto wfOne (.obj .nil) initState).2.1.status = "cancelled" ∧
    (run envCancel cfgAuto wfOne (.obj .nil) initState).2.1.results.keys = [] := by
  exact ⟨rfl, rfl, rfl⟩

/-- C3 (amended): if a reached step k's result carries a truthy cancelled
flag, the run returns the cancelled outcome immediately with status
cancelled, records nothing for step k, executes no step after k, and — for
distinct ids from a fresh state — the recorded keys are exactly those of
steps 0..k-1. -/
theorem C3_cancel_halts (env : Env) (cfg : Cfg) (wf : Workflow) (input : Json) (st0 : PState)
    (k : Nat) (inp : JsonObj) (st : PState) (evs : List Event) (s : Step) (rest : List Step)
    (r : Json) (c : Json)
    (hsplit : wf.steps.drop k = s :: rest)
    (hreach : runUpTo env cfg (wf.steps.take k) 0 (Json.spreadFields input)
      { st0 with status := "running" } [] = .next inp st evs)
    (hexec : (getAgent env s.agent).execute inp (buildOptions cfg s) = .ok r)
    (hcanc : Json.get? r "cancelled" = some c)
    (htr : c.truthy = true) :
    run env cfg wf input st0 =
      (.cancelled, { st with currentStep := k, status := "cancelled" },
        evs ++ [.agentExec k s.agent inp (buildOptions cfg s)]) ∧
    ({ st with currentStep := k, status := "cancelled" } : PState).results = st.results ∧
    (st0.results = .nil → (wf.steps.map stepKey).Nodup →
      (run env cfg wf input st0).2.1.results.keys = (wf.steps.take k).map stepKey) := by
  have hk : k ≤ wf.steps.length := by
    by_contra hcon
    push_neg at hcon
    rw [List.drop_eq_nil_of_le (by omega)] at hsplit
    simp at hsplit
  obtain ⟨m, rfl⟩ := get?_some_obj hcanc
  have hlk : m.lookup "cancelled" = some c := by simpa [Json.get?] using hcanc
  have hRS := @runStep_cancel env cfg k s inp st _ _
    (executeStep_exec_ok hexec (jsGet_obj m "success")) (jsGet_obj m "cancelled")
    (by rw [hlk]; simpa [Json.truthyOpt] using htr)
  have hrun := run_split env cfg wf input st0 k inp st evs hk hreach
  rw [hsplit, runUpTo_cons, hRS] at hrun
  simp only [List.nil_append] at hrun
  refine ⟨hrun, rfl, ?_⟩
  intro hr0 hnd
  rw [hrun]
  have hnd2 : ((wf.steps.take k).map stepKey).Nodup := by
    rw [List.map_take]
    exact List.Nodup.sublist (List.take_sublist _ _) hnd
  have hkeys := runUpTo_keys env cfg (wf.steps.take k) 0 (Json.spreadFields input) inp
    { st0 with status := "running" } st evs hnd2
    (by intro s' _ hmem; rw [hr0] at hmem; simp [JsonObj.keys] at hmem) hreach
  have h2 := hkeys.1
  rw [hr0] at h2
  simpa [JsonObj.keys] using h2

/-- C3 witness (for the amended theorem, at a cancelling agent). -/
theorem C3_cancel_halts_witness :
    Json.get? (.obj (.cons "success" (.bool false) (.cons "cancelled" (.bool true) .nil)))
      "cancelled" = some (.bool true) ∧
    (run envCancel cfgAuto wfOne (.obj .nil) initState).1 = .cancelled ∧
    (run envCancel cfgAuto wfOne (.obj .nil) initState).2.1.results.keys = [] := by
  have h := C3_cancel_halts envCancel cfgAuto wfOne (.obj .nil) initState 0 .nil
    ⟨0, "running", .nil⟩ [] (mkStep "research_agent") []
    (.obj (.cons "success" (.bool false) (.cons "cancelled" (.bool true) .nil)))
    (.bool true) rfl rfl rfl rfl rfl
  refine ⟨rfl, ?_, ?_⟩
  · rw [h.1]
  · have := h.2.2 rfl (by decide)
    rw [this]
    rfl

end Cursor
namespace Cursor

theorem jsGet_ok_other {r : Json} {a b : String} {x : Option Json}
    (h : r.jsGet a = .ok x) : r.jsGet b = .ok (r.get? b) := by
  cases r with
  | null => simp [Json.jsGet] at h
  | undef => simp [Json.jsGet] at h
  | bool v => rfl
  | num n => rfl
  | str s => rfl
  | arr xs => rfl
  | obj m => rfl

/-- C4: at a reached step k that requires confirmation, in non-auto mode,
when the gate declines (continue = false), the run pauses with
`paused: true, step: k`, status paused, step k's own result is recorded
under its key, and no later step starts (the trace ends at the gate);
for distinct ids from a fresh state the recorded keys are exactly those
of steps 0..k. -/
theorem C4_gate_decline_pauses (env : Env) (cfg : Cfg) (wf : Workflow) (input : Json)
    (st0 : PState) (k : Nat) (inp : JsonObj) (st : PState) (evs : List Event)
    (s : Step) (rest : List Step) (r : Json) (c : Option Json) (gev : Event)
    (hsplit : wf.steps.drop k = s :: rest)
    (hreach : runUpTo env cfg (wf.steps.take k) 0 (Json.spreadFields input)
      { st0 with status := "running" } [] = .next inp st evs)
    (hconf : s.confirm = true) (hauto : cfg.autoMode = false)
    (hexec : (getAgent env s.agent).execute inp (buildOptions cfg s) = .ok r)
    (hjc : r.jsGet "cancelled" = .ok c) (htr : Json.truthyOpt c = false)
    (hgate : handleConfirmPoint env.prompter s r = .ok (false, gev)) :
    run env cfg wf input st0 =
      (.paused k,
        { st with
            currentStep := k
            status := "paused"
            results := st.results.setKey (stepKey s) r },
        evs ++ [.agentExec k s.agent inp (buildOptions cfg s), gev]) ∧
    (run env cfg wf input st0).2.1.results.lookup (stepKey s) = some r ∧
    (st0.results = .nil → (wf.steps.map stepKey).Nodup →
      (run env cfg wf input st0).2.1.results.keys =
        (wf.steps.take k).map stepKey ++ [stepKey s]) := by
  have hk : k ≤ wf.steps.length := by
    by_contra hcon
    push_neg at hcon
    rw [List.drop_eq_nil_of_le (by omega)] at hsplit
    simp at hsplit
  have hM : (s.confirm && !cfg.autoMode) = true := by rw [hconf, hauto]; rfl
  have hRS := @runStep_confirm_decline env cfg k s inp st _ _ _
    (executeStep_exec_ok hexec (jsGet_ok_other hjc)) hjc htr hM hgate
  have hrun := run_split env cfg wf input st0 k inp st evs hk hreach
  rw [hsplit, runUpTo_cons, hRS] at hrun
  simp only [List.nil_append] at hrun
  refine ⟨hrun, ?_, ?_⟩
  · rw [hrun]
    simp [JsonObj.setKey_lookup]
  · intro hr0 hnd
    rw [hrun]
    have hnd2 : ((wf.steps.take k).map stepKey).Nodup := by
      rw [List.map_take]
      exact List.Nodup.sublist (List.take_sublist _ _) hnd
    have hkeys := runUpTo_keys env cfg (wf.steps.take k) 0 (Json.spreadFields input) inp
      { st0 with status := "running" } st evs hnd2
      (by intro s' _ hmem; rw [hr0] at hmem; simp [JsonObj.keys] at hmem) hreach
    have h2 := hkeys.1
    rw [hr0] at h2
    have hkst : st.results.keys = (wf.steps.take k).map stepKey := by
      simpa [JsonObj.keys] using h2
    have hnotmem : stepKey s ∉ st.results.keys := by
      rw [hkst, List.map_take]
      intro hmem
      have hsk : stepKey s ∈ (wf.steps.map stepKey).drop k := by
        rw [← List.map_drop, hsplit]
        simp
      exact List.disjoint_take_drop hnd (le_refl k) hmem hsk
    simp only
    rw [JsonObj.setKey_keys_of_not_mem _ _ _ hnotmem, hkst]

/-- C4 witness: a declining default gate pauses the run at step 0 with the
step's own failing result recorded. -/
theorem C4_gate_decline_pauses_witness :
    (wfGatedFail.steps.drop 0 =
      [{ agent := "research_agent", confirm := true }]) ∧
    (run envFail cfgInter wfGatedFail (.obj .nil) initState).1 = .paused 0 ∧
    (run envFail cfgInter wfGatedFail (.obj .nil) initState).2.1.results.lookup
      "research_agent" =
      some (.obj (.cons "success" (.bool false) (.cons "message" (.str "ng") .nil))) := by
  have h := C4_gate_decline_pauses envFail cfgInter wfGatedFail (.obj .nil) initState 0
    .nil ⟨0, "running", .nil⟩ [] { agent := "research_agent", confirm := true } []
    (.obj (.cons "success" (.bool false) (.cons "message" (.str "ng") .nil))) none
    (.gateConfirm "続行しますか？" true)
    rfl rfl rfl rfl rfl rfl rfl rfl
  exact ⟨rfl, by rw [h.1], h.2.1⟩

/-- C5 counterexample: the substituted mock agent's result has no `output`
field at all — `mock`, `input` and `options` are top-level result fields —
so nothing is merged into the shared input, refuting "execute returns
success: true with output (mock: true, input, options)". -/
theorem C5_counterexample :
    (getAgent envNone "unknown_agent").execute .nil .nil =
      .ok (.obj (.cons "success" (.bool true)
        (.cons "mock" (.bool true)
          (.cons "input" (.obj .nil) (.cons "options" (.obj .nil) .nil))))) ∧
    Json.get? (.obj (.cons "success" (.bool true)
        (.cons "mock" (.bool true)
          (.cons "input" (.obj .nil) (.cons "options" (.obj .nil) .nil))))) "output" = none ∧
    mergeSpread (.cons "seed" (.num 7) .nil)
      ((Json.get? (.obj (.cons "success" (.bool true)
        (.cons "mock" (.bool true)
          (.cons "input" (.obj .nil) (.cons "options" (.obj .nil) .nil))))) "output").getD .undef) =
      .cons "seed" (.num 7) .nil := by
  exact ⟨rfl, rfl, rfl⟩

/-- C5 (amended): an unregistered agent name, or a load fault of a
registered one, degrades to the deterministic mock agent without raising;
its execute returns success: true with the mock marker and the received
input and options echoed as top-level result fields (and no output field). -/
theorem C5_mock_fallback (env : Env) (agentName : String) (inp opts : JsonObj)
    (h : registeredAgents.contains agentName = false ∨ env.loadAgent agentName = none) :
    getAgent env agentName = mockAgent agentName ∧
    (getAgent env agentName).execute inp opts =
      .ok (.obj (.cons "success" (.bool true)
        (.cons "mock" (.bool true)
          (.cons "input" (.obj inp) (.cons "options" (.obj opts) .nil))))) ∧
    Json.get? (.obj (.cons "success" (.bool true)
        (.cons "mock" (.bool true)
          (.cons "input" (.obj inp) (.cons "options" (.obj opts) .nil))))) "output" = none := by
  have hget : getAgent env agentName = mockAgent agentName := by
    unfold getAgent
    rcases h with h | h
    · rw [h]
      simp
    · rw [h]
      by_cases hreg : registeredAgents.contains agentName = true <;> simp [hreg]
  refine ⟨hget, ?_, ?_⟩
  · rw [hget]
    rfl
  · simp [Json.get?, JsonObj.lookup]

/-- C5 witness: a registered agent whose module fails to load. -/
theorem C5_mock_fallback_witness :
    envNone.loadAgent "editor_agent" = none ∧
    (getAgent envNone "editor_agent").execute (.cons "a" (.num 1) .nil) .nil =
      .ok (.obj (.cons "success" (.bool true)
        (.cons "mock" (.bool true)
          (.cons "input" (.obj (.cons "a" (.num 1) .nil))
            (.cons "options" (.obj .nil) .nil))))) := by
  have h := C5_mock_fallback envNone "editor_agent" (.cons "a" (.num 1) .nil) .nil
    (Or.inr rfl)
  exact ⟨rfl, h.2.1⟩

end Cursor
namespace Cursor

/-- C6: in auto mode no confirmation gate is ever invoked during a run. -/
theorem C6_auto_no_gates (env : Env) (cfg : Cfg) (wf : Workflow) (input : Json)
    (st0 : PState) (hauto : cfg.autoMode = true) :
    ∀ e ∈ (run env cfg wf input st0).2.2, e.isGate = false := by
  intro e he
  rw [run_events] at he
  exact runUpTo_events_auto env cfg hauto wf.steps 0 _ _ []
    (by intro e2 h2; simp at h2) e he

/-- C6 witness. -/
theorem C6_auto_no_gates_witness :
    cfgAuto.autoMode = true ∧
    ∀ e ∈ (run envX cfgAuto wfTwo (.obj .nil) initState).2.2, e.isGate = false :=
  ⟨rfl, C6_auto_no_gates envX cfgAuto wfTwo (.obj .nil) initState rfl⟩

/-- C7: after every continuing step the result's output is shallow-merged
into the shared input (absent keys kept, present keys overwritten, last
write wins), and in particular when step B (after a step A that wrote
x = 1) writes x = 2 and no later step before C writes x, the input
reaching C maps x to 2. -/
theorem C7_output_accretion :
    (∀ (env : Env) (cfg : Cfg) (i : Nat) (s : Step) (inp : JsonObj) (st : PState)
      (inp' : JsonObj) (st' : PState) (evs : List Event) (r : Json),
      (getAgent env s.agent).execute inp (buildOptions cfg s) = .ok r →
      runStep env cfg i s inp st = .next inp' st' evs →
      inp' = mergeSpread inp ((r.get? "output").getD .undef) ∧
      ∀ key, inp'.lookup key =
        (match lastWrite ((Json.spreadFields ((r.get? "output").getD .undef)).entries) key with
         | some v => some v
         | none => inp.lookup key)) ∧
    (∀ (env : Env) (cfg : Cfg) (iB : Nat) (b : Step) (inpB : JsonObj) (stB : PState)
      (inpB2 : JsonObj) (stB2 : PState) (evsB : List Event) (mid : List Step)
      (inpC : JsonObj) (stC : PState) (evsC : List Event) (rB : Json),
      inpB.lookup "x" = some (.num 1) →
      (getAgent env b.agent).execute inpB (buildOptions cfg b) = .ok rB →
      lastWrite ((Json.spreadFields ((rB.get? "output").getD .undef)).entries) "x" =
        some (.num 2) →
      runStep env cfg iB b inpB stB = .next inpB2 stB2 evsB →
      (∀ s' ∈ mid, ∀ (inp2 : JsonObj) (r : Json),
        (getAgent env s'.agent).execute inp2 (buildOptions cfg s') = .ok r →
        lastWrite ((Json.spreadFields ((r.get? "output").getD .undef)).entries) "x" = none) →
      runUpTo env cfg mid (iB + 1) inpB2 stB2 [] = .next inpC stC evsC →
      inpC.lookup "x" = some (.num 2)) := by
  have part1 : ∀ (env : Env) (cfg : Cfg) (i : Nat) (s : Step) (inp : JsonObj) (st : PState)
      (inp' : JsonObj) (st' : PState) (evs : List Event) (r : Json),
      (getAgent env s.agent).execute inp (buildOptions cfg s) = .ok r →
      runStep env cfg i s inp st = .next inp' st' evs →
      inp' = mergeSpread inp ((r.get? "output").getD .undef) ∧
      ∀ key, inp'.lookup key =
        (match lastWrite ((Json.spreadFields ((r.get? "output").getD .undef)).entries) key with
         | some v => some v
         | none => inp.lookup key) := by
    intro env cfg i s inp st inp' st' evs r hexec hnext
    obtain ⟨r2, hexec2, hmrg, _⟩ := runStep_next_shape hnext
    rw [hexec] at hexec2
    injection hexec2 with hr2
    subst hr2
    refine ⟨hmrg, fun key => ?_⟩
    rw [hmrg]
    exact mergeSpread_lookup inp _ key
  refine ⟨part1, ?_⟩
  intro env cfg iB b inpB stB inpB2 stB2 evsB mid inpC stC evsC rB hA hexec hlw hnext hmid hrun
  have h1 := (part1 env cfg iB b inpB stB inpB2 stB2 evsB rB hexec hnext).2 "x"
  rw [hlw] at h1
  have h2 := runUpTo_stable env cfg "x" mid (iB + 1) inpB2 inpC stB2 stC evsC hmid hrun
  rw [h2, h1]

/-- C7 witness: the x-writing two-agent scenario, with C immediately
after B. -/
theorem C7_output_accretion_witness :
    (JsonObj.cons "x" (Json.num 1) .nil).lookup "x" = some (.num 1) ∧
    (JsonObj.cons "x" (Json.num 2) .nil).lookup "x" = some (.num 2) := by
  refine ⟨rfl, ?_⟩
  exact C7_output_accretion.2 envX cfgAuto 1 (mkStep "creative_writer_agent")
    (JsonObj.cons "x" (Json.num 1) .nil) initState
    (JsonObj.cons "x" (Json.num 2) .nil)
    ⟨1, "idle", .cons "creative_writer_agent"
      (.obj (.cons "success" (.bool true)
        (.cons "output" (.obj (.cons "x" (.num 2) .nil)) .nil))) .nil⟩
    [.agentExec 1 "creative_writer_agent" (JsonObj.cons "x" (Json.num 1) .nil)
      (buildOptions cfgAuto (mkStep "creative_writer_agent"))]
    [] (JsonObj.cons "x" (Json.num 2) .nil)
    ⟨1, "idle", .cons "creative_writer_agent"
      (.obj (.cons "success" (.bool true)
        (.cons "output" (.obj (.cons "x" (.num 2) .nil)) .nil))) .nil⟩
    []
    (.obj (.cons "success" (.bool true)
      (.cons "output" (.obj (.cons "x" (.num 2) .nil)) .nil)))
    rfl rfl rfl rfl (by intro s' hs'; simp at hs') rfl

theorem getD_mem {α : Type} (l : List α) (n : Nat) (d : α) (h : n < l.length) :
    l.getD n d ∈ l := by
  induction l generalizing n with
  | nil => simp at h
  | cons x t ih =>
    cases n with
    | zero => simp
    | succ n2 =>
      rw [List.getD_cons_succ]
      exact List.mem_cons_of_mem _ (ih n2 (by simpa using h))

/-- The option `select` resolves always comes from the offered list
(given an in-range default index). -/
theorem selectChoice_value_mem (p : Prompter) (q : String) (options : List SelOption)
    (d : Nat) (hd : d < options.length) :
    (selectChoice p q options d).value ∈ options.map SelOption.value := by
  unfold selectChoice
  simp only
  apply List.mem_map_of_mem SelOption.value
  cases hP : parseIntJS (p.selectAnswer q options) with
  | none => exact getD_mem options d _ hd
  | some n =>
    by_cases hin : 1 ≤ n ∧ n ≤ (options.length : Int)
    · simp only [hin, if_true]
      exact getD_mem options (n - 1).toNat _ (by omega)
    · simp only [hin, if_false]
      exact getD_mem options d _ hd

/-- C8: confirmation-gate dispatch. For kind `trends` the run continues
iff the selected action is `continue` (whose alternatives are edit, add,
retry, cancel); for `suggestions` it continues iff the action is not
`cancel` (alternatives apply, skip, manual); every other kind uses the
plain yes/no confirm with the step's message (or the generic fallback)
and default answer yes; an absent trends/suggestions list is passed to
the gate as the empty list. -/
theorem C8_gate_dispatch (p : Prompter) (s : Step) (r : Json) (m : JsonObj)
    (hout : Json.get? r "output" = some (.obj m)) :
    (s.confirmType = some "trends" →
      (let payload :=
        match m.lookup "trends" with
        | some t => if t.truthy then t else .arr .nil
        | none => .arr .nil
       handleConfirmPoint p s r =
         .ok (confirmTrendsGate p payload = "continue", .gateTrends payload) ∧
       confirmTrendsGate p payload ∈ ["continue", "edit", "add", "retry", "cancel"] ∧
       (m.lookup "trends" = none → payload = .arr .nil))) ∧
    (s.confirmType = some "suggestions" →
      (let payload :=
        match m.lookup "suggestions" with
        | some t => if t.truthy then t else .arr .nil
        | none => .arr .nil
       handleConfirmPoint p s r =
         .ok ((confirmSuggestionsGate p payload).action ≠ "cancel", .gateSuggestions payload) ∧
       (confirmSuggestionsGate p payload).action ∈ ["apply", "skip", "manual", "cancel"] ∧
       (m.lookup "suggestions" = none → payload = .arr .nil))) ∧
    ((s.confirmType = none ∨ s.confirmType = some "default") →
      (let message :=
        match s.confirmMessage with
        | some msg => if msg = "" then "続行しますか？" else msg
        | none => "続行しますか？"
       handleConfirmPoint p s r = .ok (confirmAsk p message true, .gateConfirm message true))) := by
  obtain ⟨m0, rfl⟩ := get?_some_obj hout
  have hl0 : m0.lookup "output" = some (.obj m) := by simpa [Json.get?] using hout
  refine ⟨?_, ?_, ?_⟩
  · intro hct
    refine ⟨?_, ?_, ?_⟩
    · unfold handleConfirmPoint
      rw [hct]
      simp only [if_neg (show ¬ ("trends" = "") by decide), if_pos rfl]
      simp [jsGet_obj, hl0, jsGetOpt, Except.bind, bind, Except.instMonad]
    · have := selectChoice_value_mem p "このトレンドで執筆を開始しますか？" trendOptions 0
        (by decide)
      simpa [confirmTrendsGate, trendOptions] using this
    · intro habs
      simp [habs]
  · intro hct
    refine ⟨?_, ?_, ?_⟩
    · unfold handleConfirmPoint
      rw [hct]
      simp only [if_neg (show ¬ ("suggestions" = "") by decide),
        if_neg (show ¬ ("suggestions" = "trends") by decide), if_pos rfl]
      simp [jsGet_obj, hl0, jsGetOpt, Except.bind, bind, Except.instMonad]
    · unfold confirmSuggestionsGate
      have := selectChoice_value_mem p "どうしますか？" suggestionOptions 0 (by decide)
      by_cases hmanual : (selectChoice p "どうしますか？" suggestionOptions 0).value = "manual"
      · simp [hmanual]
      · simp only [hmanual, if_false]
        simpa [suggestionOptions] using this
    · intro habs
      simp [habs]
  · intro hct
    unfold handleConfirmPoint
    rcases hct with hct | hct <;> rw [hct] <;> simp

end Cursor
namespace Cursor

/-- C8 witness: a `trends` gate on a result whose output has no trends
list, with the silent oracle (empty answers). -/
theorem C8_gate_dispatch_witness :
    Json.get? (.obj (.cons "output" (.obj .nil) .nil)) "output" = some (.obj .nil) ∧
    handleConfirmPoint pSilent
      { agent := "research_agent", confirm := true, confirmType := some "trends" }
      (.obj (.cons "output" (.obj .nil) .nil)) =
      .ok (true, .gateTrends (.arr .nil)) := by
  refine ⟨rfl, ?_⟩
  have h := (C8_gate_dispatch pSilent
    { agent := "research_agent", confirm := true, confirmType := some "trends" }
    (.obj (.cons "output" (.obj .nil) .nil)) .nil rfl).1 rfl
  exact h.1

/-- A stringified object is never the empty string (so `readJson` does not
mistake it for falsy content). -/
theorem jstringify_obj_ne_empty (f : JsonObj) : jstringify (.obj f) ≠ "" := by
  show String.mk (stringifyV 0 (dropUndef (.obj f))) ≠ ""
  have h1 : dropUndef (.obj f) = .obj (dropUndefObj f) := by rw [dropUndef]
  rw [h1]
  cases hdu : dropUndefObj f with
  | nil =>
    intro hc
    have : (String.mk (stringifyV 0 (.obj .nil))).data = ("" : String).data := by rw [hc]
    simp [stringifyV] at this
  | cons k v t =>
    intro hc
    have : (String.mk (stringifyV 0 (.obj (.cons k v t)))).data = ("" : String).data := by
      rw [hc]
    simp [stringifyV] at this

/-- The encoded checkpoint document is representable whenever the results
object is. -/
theorem encodeState_representable (st : PState)
    (hrep : representable (.obj st.results) = true) :
    representable (encodeState st) = true := by
  simp only [representable] at hrep
  simp [encodeState, representable, representableObj, JsonObj.keys, hrep]

/-- C9: `saveState` writes the checkpoint at
`projectPath/.pipeline_state.json` and a subsequent `loadState` from that
file system reproduces exactly the saved document (for representable
results); when the checkpoint file is absent, `loadState` keeps the
current state unchanged. -/
theorem C9_checkpoint_roundtrip :
    (∀ (fs : FS) (cfg : Cfg) (st : PState) (cur : Json),
      representable (.obj st.results) = true →
      (saveState fs cfg st) (statePath cfg.projectPath) =
        some (jstringify (encodeState st)) ∧
      loadStateDoc (saveState fs cfg st) cfg cur = encodeState st) ∧
    (∀ (fs : FS) (cfg : Cfg) (cur : Json),
      fs (statePath cfg.projectPath) = none → loadStateDoc fs cfg cur = cur) := by
  constructor
  · intro fs cfg st cur hrep
    have hfs : (saveState fs cfg st) (statePath cfg.projectPath) =
        some (jstringify (encodeState st)) := by
      simp [saveState, writeJson]
    refine ⟨hfs, ?_⟩
    have hrepE := encodeState_representable st hrep
    have hne : jstringify (encodeState st) ≠ "" := by
      rw [encodeState]
      exact jstringify_obj_ne_empty _
    have hparse : jparse (jstringify (encodeState st)) = some (encodeState st) :=
      jparse_jstringify _ hrepE
    unfold loadStateDoc readJson readFileSafe
    rw [hfs]
    simp only [hne, if_false, hparse]
    have htr : (encodeState st).truthy = true := by rw [encodeState]; rfl
    simp [htr]
  · intro fs cfg cur h
    unfold loadStateDoc readJson readFileSafe
    rw [h]
    simp [Json.truthy]

/-- C9 witness: a concrete mid-run state roundtrips through the file
system, and the empty file system leaves the current state alone. -/
theorem C9_checkpoint_roundtrip_witness :
    representable (.obj stDemo.results) = true ∧
    loadStateDoc (saveState fsEmpty cfgAuto stDemo) cfgAuto .null = encodeState stDemo ∧
    fsEmpty (statePath cfgAuto.projectPath) = none ∧
    loadStateDoc fsEmpty cfgAuto (.str "keep") = .str "keep" :=
  ⟨rfl,
   (C9_checkpoint_roundtrip.1 fsEmpty cfgAuto stDemo .null rfl).2,
   rfl,
   C9_checkpoint_roundtrip.2 fsEmpty cfgAuto (.str "keep") rfl⟩

/-- C10 counterexample: a step whose agent resolves with
`success: false` (no exception, not cancelled) does not make the run
proceed to the next step unconditionally: with a confirmation gate the
operator declines, the run pauses at that very step, and the failing
result is recorded like any other. -/
theorem C10_counterexample :
    (run envFail cfgInter wfGatedFail (.obj .nil) initState).1 = .paused 0 ∧
    (run envFail cfgInter wfGatedFail (.obj .nil) initState).2.1.results.lookup
        "research_agent" =
      some (.obj (.cons "success" (.bool false) (.cons "message" (.str "ng") .nil))) ∧
    Json.get? (.obj (.cons "success" (.bool false) (.cons "message" (.str "ng") .nil)))
        "success" = some (.bool false) ∧
    Json.get? (.obj (.cons "success" (.bool false) (.cons "message" (.str "ng") .nil)))
        "cancelled" = none :=
  ⟨rfl, rfl, rfl, rfl⟩

/-- C10 (amended): a resolved result with `success: false` is treated
exactly like a success — recorded under the step key and its output
merged — and the loop moves on whenever no gate applies (ungated step or
auto mode) or the gate answers continue; failure alone never stops the
run. -/
theorem C10_failure_not_fatal (env : Env) (cfg : Cfg) (i : Nat) (s : Step)
    (inp : JsonObj) (st : PState) (r : Json) (m : JsonObj)
    (hexec : executeStep env cfg s inp = .ok r)
    (hr : r = .obj m)
    (hsucc : m.lookup "success" = some (.bool false))
    (hcanc : m.lookup "cancelled" = none) :
    ((s.confirm = false ∨ cfg.autoMode = true) →
      runStep env cfg i s inp st =
        .next (mergeSpread inp ((r.get? "output").getD .undef))
          { st with
            currentStep := i
            results := st.results.setKey (stepKey s) r }
          [.agentExec i s.agent inp (buildOptions cfg s)]) ∧
    (∀ gev : Event, s.confirm = true → cfg.autoMode = false →
      handleConfirmPoint env.prompter s r = .ok (true, gev) →
      runStep env cfg i s inp st =
        .next (mergeSpread inp ((r.get? "output").getD .undef))
          { st with
            currentStep := i
            results := st.results.setKey (stepKey s) r }
          [.agentExec i s.agent inp (buildOptions cfg s), gev]) := by
  subst hr
  have hc : (Json.obj m).jsGet "cancelled" = .ok (m.lookup "cancelled") := jsGet_obj m _
  rw [hcanc] at hc
  have ht : Json.truthyOpt none = false := rfl
  constructor
  · intro hny
    have hng : (s.confirm && !cfg.autoMode) = false := by
      rcases hny with h | h <;> simp [h]
    exact runStep_next_noconfirm hexec hc ht hng
  · intro gev hcf ha hgate
    have hm2 : (s.confirm && !cfg.autoMode) = true := by simp [hcf, ha]
    exact runStep_confirm_continue hexec hc ht hm2 hgate

/-- C10 amended witness: the failing gated step of the counterexample,
run in auto mode, is recorded and the loop continues past it. -/
theorem C10_failure_not_fatal_witness :
    Json.get? (.obj (.cons "success" (.bool false) (.cons "message" (.str "ng") .nil)))
        "success" = some (.bool false) ∧
    runStep envFail cfgAuto 0 (mkStep "research_agent") .nil initState =
      .next .nil
        ⟨0, "idle", .cons "research_agent"
          (.obj (.cons "success" (.bool false) (.cons "message" (.str "ng") .nil))) .nil⟩
        [.agentExec 0 "research_agent" .nil (buildOptions cfgAuto (mkStep "research_agent"))] := by
  refine ⟨rfl, ?_⟩
  have h := (C10_failure_not_fatal envFail cfgAuto 0 (mkStep "research_agent")
    .nil initState
    (.obj (.cons "success" (.bool false) (.cons "message" (.str "ng") .nil)))
    (.cons "success" (.bool false) (.cons "message" (.str "ng") .nil))
    rfl rfl rfl rfl).1 (Or.inr rfl)
  exact h

end Cursor
